import Mathlib

set_option maxRecDepth 200000

/-!
Shallow embedding of the HUB75 LED-matrix driver core of this repository
(src/hub75.rs, src/panel.rs, src/main.rs), together with proofs settling the
frozen claims about it.

Machine integers (`u32`, `u8`, `u16`) are embedded as `Nat`; the only
wrapping operation in the modelled code is the `u32` bitwise complement
`!(1 << pin)`, embedded explicitly as `0xFFFFFFFF ^^^ (1 <<< pin)`.
Code that can panic (`assert!`, early `unwrap`) is embedded in `Except`
with `Failure.panic` for a panic.
-/

/-- Failure channel of the embedded fallible functions.  `panic` embeds a Rust
`assert!`/panic (a process abort on this target); `dimensionError` is the typed
recoverable error that the specification postulates for frame-dimension
rejection (it never occurs in the code, which is the point of claim C4). -/
inductive Failure where
  | panic : Failure
  | dimensionError : Failure
deriving DecidableEq, Repr

/-- PWM_TABLE from src/hub75.rs lines 3-24 (256 entries of `u16`). -/
def PWM_TABLE : List Nat := [
  65535, 65508, 65479, 65451, 65422, 65394, 65365, 65337, 65308, 65280, 65251, 65223, 65195,
  65166, 65138, 65109, 65081, 65052, 65024, 64995, 64967, 64938, 64909, 64878, 64847, 64815,
  64781, 64747, 64711, 64675, 64637, 64599, 64559, 64518, 64476, 64433, 64389, 64344, 64297,
  64249, 64200, 64150, 64099, 64046, 63992, 63937, 63880, 63822, 63763, 63702, 63640, 63577,
  63512, 63446, 63379, 63310, 63239, 63167, 63094, 63019, 62943, 62865, 62785, 62704, 62621,
  62537, 62451, 62364, 62275, 62184, 62092, 61998, 61902, 61804, 61705, 61604, 61501, 61397,
  61290, 61182, 61072, 60961, 60847, 60732, 60614, 60495, 60374, 60251, 60126, 59999, 59870,
  59739, 59606, 59471, 59334, 59195, 59053, 58910, 58765, 58618, 58468, 58316, 58163, 58007,
  57848, 57688, 57525, 57361, 57194, 57024, 56853, 56679, 56503, 56324, 56143, 55960, 55774,
  55586, 55396, 55203, 55008, 54810, 54610, 54408, 54203, 53995, 53785, 53572, 53357, 53140,
  52919, 52696, 52471, 52243, 52012, 51778, 51542, 51304, 51062, 50818, 50571, 50321, 50069,
  49813, 49555, 49295, 49031, 48764, 48495, 48223, 47948, 47670, 47389, 47105, 46818, 46529,
  46236, 45940, 45641, 45340, 45035, 44727, 44416, 44102, 43785, 43465, 43142, 42815, 42486,
  42153, 41817, 41478, 41135, 40790, 40441, 40089, 39733, 39375, 39013, 38647, 38279, 37907,
  37531, 37153, 36770, 36385, 35996, 35603, 35207, 34808, 34405, 33999, 33589, 33175, 32758,
  32338, 31913, 31486, 31054, 30619, 30181, 29738, 29292, 28843, 28389, 27932, 27471, 27007,
  26539, 26066, 25590, 25111, 24627, 24140, 23649, 23153, 22654, 22152, 21645, 21134, 20619,
  20101, 19578, 19051, 18521, 17986, 17447, 16905, 16358, 15807, 15252, 14693, 14129, 13562,
  12990, 12415, 11835, 11251, 10662, 10070, 9473, 8872, 8266, 7657, 7043, 6424, 5802, 5175, 4543,
  3908, 3267, 2623, 1974, 1320, 662, 0]

/-- `lightness_correct` from src/hub75.rs lines 27-38.  The Rust argument is a
`u8`, so the table index is always in range; `getD` with default 0 embeds the
in-range indexing. -/
def lightness_correct (value : Nat) : Nat :=
  let corrected_16bit := PWM_TABLE.getD value 0
  let inverted_16bit := 65535 - corrected_16bit
  inverted_16bit >>> 8

/-- GAMMA_TABLE from src/main.rs lines 33-45 (256 entries of `u8`). -/
def GAMMA_TABLE : List Nat := [
  0, 0, 0, 0, 0, 0, 0, 0, 0, 0, 0, 0, 0, 0, 0, 0, 0, 0, 0, 0, 0, 0, 1, 1, 1, 1, 1, 1, 1, 2, 2, 2,
  2, 2, 2, 3, 3, 3, 3, 3, 4, 4, 4, 4, 5, 5, 5, 5, 6, 6, 6, 7, 7, 7, 8, 8, 8, 9, 9, 9, 10, 10, 11,
  11, 11, 12, 12, 13, 13, 13, 14, 14, 15, 15, 16, 16, 17, 17, 18, 18, 19, 19, 20, 21, 21, 22, 22,
  23, 23, 24, 25, 25, 26, 27, 27, 28, 29, 29, 30, 31, 31, 32, 33, 34, 34, 35, 36, 37, 37, 38, 39,
  40, 40, 41, 42, 43, 44, 45, 46, 46, 47, 48, 49, 50, 51, 52, 53, 54, 55, 56, 57, 58, 59, 60, 61,
  62, 63, 64, 65, 66, 67, 68, 69, 70, 71, 72, 73, 74, 76, 77, 78, 79, 80, 81, 83, 84, 85, 86, 88,
  89, 90, 91, 93, 94, 95, 96, 98, 99, 100, 102, 103, 104, 106, 107, 109, 110, 111, 113, 114, 116,
  117, 119, 120, 121, 123, 124, 126, 128, 129, 131, 132, 134, 135, 137, 138, 140, 142, 143, 145,
  146, 148, 150, 151, 153, 155, 157, 158, 160, 162, 163, 165, 167, 169, 170, 172, 174, 176, 178,
  179, 181, 183, 185, 187, 189, 191, 193, 194, 196, 198, 200, 202, 204, 206, 208, 210, 212, 214,
  216, 218, 220, 222, 224, 227, 229, 231, 233, 235, 237, 239, 241, 244, 246, 248, 250, 252, 255]

/-- `gamma_correct` from src/main.rs lines 48-50. -/
def gamma_correct (value : Nat) : Nat := GAMMA_TABLE.getD value 0

/-- The pin data carried by the `Pins` struct of src/hub75.rs: the fourteen GPIO
numbers, retrievable from the stored `PinDriver`s via `.pin()` as
`render_unoptimized` does.  (The `PinDriver` hardware handles themselves have no
observable state beyond their pin number.) -/
structure PinCfg where
  r1 : Nat
  g1 : Nat
  b1 : Nat
  r2 : Nat
  g2 : Nat
  b2 : Nat
  a : Nat
  b : Nat
  c : Nat
  d : Nat
  e : Nat
  clk : Nat
  lat : Nat
  oe : Nat
deriving DecidableEq, Repr

/-- `rgb_mask` as computed in `Pins::new` (src/hub75.rs lines 103-105). -/
def rgb_mask (cfg : PinCfg) : Nat :=
  ((1 <<< cfg.r1) ||| (1 <<< cfg.g1) ||| (1 <<< cfg.b1)) |||
  ((1 <<< cfg.r2) ||| (1 <<< cfg.g2) ||| (1 <<< cfg.b2))

/-- `addr_mask` as computed in `Pins::new` (src/hub75.rs lines 107-108). -/
def addr_mask (cfg : PinCfg) : Nat :=
  (1 <<< cfg.a) ||| (1 <<< cfg.b) ||| (1 <<< cfg.c) ||| (1 <<< cfg.d) ||| (1 <<< cfg.e)

/-- `Hub75::get_all_pin_mask` (src/hub75.rs lines 152-158). -/
def get_all_pin_mask (cfg : PinCfg) : Nat :=
  rgb_mask cfg ||| addr_mask cfg |||
  (1 <<< cfg.oe) ||| (1 <<< cfg.lat) ||| (1 <<< cfg.clk)

/-- `Pins::new` (src/hub75.rs lines 69-145).  The body runs
`assert!(p < 32)` over the array `[r1, g1, b1, r2, g2, b2, a, b, c, d, clk,
lat, oe]` — NOTE: the source array omits `e`, and there is no pairwise
distinctness check of any kind.  An assertion failure is a panic, embedded as
`Failure.panic`.  (`PinDriver::output(..).unwrap()` is hardware setup with no
observable effect on the embedded state.) -/
def pinsNew (r1 g1 b1 r2 g2 b2 a b c d e clk lat oe : Nat) : Except Failure PinCfg :=
  if r1 < 32 ∧ g1 < 32 ∧ b1 < 32 ∧ r2 < 32 ∧ g2 < 32 ∧ b2 < 32 ∧
     a < 32 ∧ b < 32 ∧ c < 32 ∧ d < 32 ∧ clk < 32 ∧ lat < 32 ∧ oe < 32 then
    Except.ok ⟨r1, g1, b1, r2, g2, b2, a, b, c, d, e, clk, lat, oe⟩
  else
    Except.error Failure.panic

/-- The pin assignment that src/main.rs lines 173-188 passes to `Pins::new`. -/
def mainCfg : PinCfg :=
  { r1 := 12, g1 := 13, b1 := 14, r2 := 15, g2 := 16, b2 := 17,
    a := 4, b := 5, c := 6, d := 7, e := 8, clk := 3, lat := 9, oe := 10 }

/-- An `image::RgbImage`: dimensions plus the pixel accessor.
`pix x y ch` is `image.get_pixel(x, y)[ch]` (ch 0 = red, 1 = green, 2 = blue). -/
structure RgbImage where
  width : Nat
  height : Nat
  pix : Nat → Nat → Nat → Nat

/-- 64x64 frame with every pixel black (0,0,0). -/
def allBlackImg : RgbImage := ⟨64, 64, fun _ _ _ => 0⟩

/-- 64x64 frame with every pixel red (255,0,0). -/
def allRedImg : RgbImage := ⟨64, 64, fun _ _ ch => if ch = 0 then 255 else 0⟩

/-- 64x64 frame with every pixel white (255,255,255). -/
def allWhiteImg : RgbImage := ⟨64, 64, fun _ _ _ => 255⟩

/-- A 1x1 frame, used to exercise the dimension check. -/
def badImg : RgbImage := ⟨1, 1, fun _ _ _ => 0⟩

/-- `current_gpio_state |= 1 << pin` on the `u32` GPIO word. -/
def setPin (s p : Nat) : Nat := s ||| (1 <<< p)

/-- `current_gpio_state &= !(1 << pin)` on the `u32` GPIO word (`!` is the
32-bit complement). -/
def clearPin (s p : Nat) : Nat := s &&& (0xFFFFFFFF ^^^ (1 <<< p))

/-- `if bit != 0 { state |= 1 << pin } else { state &= !(1 << pin) }` — the
conditional set/clear pattern used for every data and address bit in
`render_unoptimized`. -/
def applyBit (s p bitVal : Nat) : Nat :=
  if bitVal ≠ 0 then setPin s p else clearPin s p

/-- Sequencing of two state-threaded word emitters: run `f` from `s`, then `g`
from the state `f` left behind; the emitted words are concatenated.  This is
the shape of every loop in `render_unoptimized`, which pushes words into one
growing `Vec` while mutating `current_gpio_state`. -/
def emitSeq (f g : Nat → List Nat × Nat) (s : Nat) : List Nat × Nat :=
  ((f s).1 ++ (g (f s).2).1, (g (f s).2).2)

/-- Body of the column loop of `render_unoptimized` (src/hub75.rs lines
208-262) for one column: compute the six per-channel plane bits (note the
channel indices taken from the source: R1/R2 read `pixel[2]`, G1/G2 read
`pixel[0]`, B1/B2 read `pixel[1]`), apply them, push the word, then pulse the
clock low and high, pushing after each change.  `BIT_DEPTH = 5`. -/
def colStep (cfg : PinCfg) (img : RgbImage) (bitPlane row col s : Nat) :
    List Nat × Nat :=
  let bitOffset := 8 - 5 + bitPlane
  let r1Bit := (lightness_correct (img.pix col row 2) >>> bitOffset) &&& 1
  let g1Bit := (lightness_correct (img.pix col row 0) >>> bitOffset) &&& 1
  let b1Bit := (lightness_correct (img.pix col row 1) >>> bitOffset) &&& 1
  let r2Bit := (lightness_correct (img.pix col (row + 32) 2) >>> bitOffset) &&& 1
  let g2Bit := (lightness_correct (img.pix col (row + 32) 0) >>> bitOffset) &&& 1
  let b2Bit := (lightness_correct (img.pix col (row + 32) 1) >>> bitOffset) &&& 1
  let s1 := applyBit (applyBit (applyBit (applyBit (applyBit (applyBit
              s cfg.r1 r1Bit) cfg.g1 g1Bit) cfg.b1 b1Bit)
              cfg.r2 r2Bit) cfg.g2 g2Bit) cfg.b2 b2Bit
  let s2 := clearPin s1 cfg.clk
  let s3 := setPin s2 cfg.clk
  ([s1, s2, s3], s3)

/-- The column loop `for col in 0..64`, written as recursion on the number `n`
of remaining columns, starting at column `col`. -/
def colsFrom (cfg : PinCfg) (img : RgbImage) (bitPlane row : Nat) :
    Nat → Nat → Nat → List Nat × Nat
  | _, 0, s => ([], s)
  | col, n + 1, s =>
      emitSeq (colStep cfg img bitPlane row col)
        (fun t => colsFrom cfg img bitPlane row (col + 1) n t) s

/-- The six RGB-pin clears at the top of the row loop (src/hub75.rs lines
200-205); no word is pushed here. -/
def clearRgb (cfg : PinCfg) (s : Nat) : Nat :=
  clearPin (clearPin (clearPin (clearPin (clearPin (clearPin
    s cfg.r1) cfg.g1) cfg.b1) cfg.r2) cfg.g2) cfg.b2

/-- The row-address update (src/hub75.rs lines 276-300): conditional set/clear
of A, B, C, D, E from the bits of `row`; the word is pushed by the caller. -/
def setAddr (cfg : PinCfg) (row s : Nat) : Nat :=
  applyBit (applyBit (applyBit (applyBit (applyBit
    s cfg.a (row &&& 1)) cfg.b (row &&& 2)) cfg.c (row &&& 4))
    cfg.d (row &&& 8)) cfg.e (row &&& 16)

/-- Body of the row loop of `render_unoptimized` (src/hub75.rs lines 198-308)
for one row: clear the RGB pins, shift the 64 columns, then OE high (push),
LAT low (push), LAT high (push), row address (push), OE low (push). -/
def rowStep (cfg : PinCfg) (img : RgbImage) (bitPlane row s : Nat) :
    List Nat × Nat :=
  let cols := colsFrom cfg img bitPlane row 0 64 (clearRgb cfg s)
  let w1 := setPin cols.2 cfg.oe
  let w2 := clearPin w1 cfg.lat
  let w3 := setPin w2 cfg.lat
  let w4 := setAddr cfg row w3
  let w5 := clearPin w4 cfg.oe
  (cols.1 ++ [w1, w2, w3, w4, w5], w5)

/-- The row loop `for row in 0..32`, recursion on the number of remaining rows. -/
def rowsFrom (cfg : PinCfg) (img : RgbImage) (bitPlane : Nat) :
    Nat → Nat → Nat → List Nat × Nat
  | _, 0, s => ([], s)
  | row, n + 1, s =>
      emitSeq (rowStep cfg img bitPlane row)
        (fun t => rowsFrom cfg img bitPlane (row + 1) n t) s

/-- One full 32-row scan of the panel at plane `bitPlane`. -/
def scanStep (cfg : PinCfg) (img : RgbImage) (bitPlane : Nat) (s : Nat) :
    List Nat × Nat :=
  rowsFrom cfg img bitPlane 0 32 s

/-- The repeat loop `for _ in 0..frames_to_display` of src/hub75.rs line 196:
`n` consecutive full scans at plane `bitPlane`. -/
def repeatScan (cfg : PinCfg) (img : RgbImage) (bitPlane : Nat) :
    Nat → Nat → List Nat × Nat
  | 0, s => ([], s)
  | n + 1, s =>
      emitSeq (scanStep cfg img bitPlane)
        (repeatScan cfg img bitPlane n) s

/-- The same `n` consecutive full scans as `repeatScan`, kept as a list of the
individual scan word-blocks instead of one concatenation. -/
def scanBlocks (cfg : PinCfg) (img : RgbImage) (bitPlane : Nat) :
    Nat → Nat → List (List Nat)
  | 0, _ => []
  | n + 1, s =>
      (scanStep cfg img bitPlane s).1 ::
        scanBlocks cfg img bitPlane n (scanStep cfg img bitPlane s).2

/-- The plane loop `for bit_plane in (0..BIT_DEPTH).rev()` (src/hub75.rs line
193): `planesDown cfg img p` runs planes `p-1, p-2, ..., 0` in that order, each
repeated `1 << bit_plane` times. -/
def planesDown (cfg : PinCfg) (img : RgbImage) : Nat → Nat → List Nat × Nat
  | 0, s => ([], s)
  | p + 1, s =>
      emitSeq (repeatScan cfg img p (1 <<< p)) (planesDown cfg img p) s

/-- The initial control-pin state of `render_unoptimized` (src/hub75.rs lines
183-188): all pins low, then CLK, LAT, OE high. -/
def initialState (cfg : PinCfg) : Nat :=
  setPin (setPin (setPin 0 cfg.clk) cfg.lat) cfg.oe

/-- The full word program of `render_unoptimized` after the dimension
assertion: the pushed initial state, the plane loop, and the final
OE-high (output disabled) word of src/hub75.rs lines 312-314. -/
def renderProgram (cfg : PinCfg) (img : RgbImage) : List Nat :=
  initialState cfg ::
    ((planesDown cfg img 5 (initialState cfg)).1 ++
      [setPin (planesDown cfg img 5 (initialState cfg)).2 cfg.oe])

/-- `Hub75::render_unoptimized` (src/hub75.rs lines 160-317).  The function
begins with `assert!(image.dimensions() == (64, 64))` — a panic, not a typed
error — and otherwise returns the word program. -/
def render_unoptimized (cfg : PinCfg) (img : RgbImage) :
    Except Failure (List Nat) :=
  if img.width = 64 ∧ img.height = 64 then
    Except.ok (renderProgram cfg img)
  else
    Except.error Failure.panic

/-- The block of words emitted for the most significant plane (bit_plane = 4),
which is the first plane the plane loop runs, starting from the initial state. -/
def msPlaneSegment (img : RgbImage) : List Nat :=
  (repeatScan mainCfg img 4 (1 <<< 4) (initialState mainCfg)).1

/-- Output-enable bit (OE is `mainCfg.oe = 10`; the bit is 1 when output is
DISABLED) of one word. -/
def oeBit (w : Nat) : Bool := w.testBit 10

/-- Expected OE-bit shape of one 197-word row block whose incoming OE bit is
`b`: 192 column words carrying `b`, then the four OE-high latch/address words,
then the OE re-enable word. -/
def rowOe (b : Bool) : List Bool :=
  List.replicate 192 b ++ [true, true, true, true, false]

/-- OE bit of every word of the program for any frame: the initial word is
OE-high; the first row block still carries OE-high through its column words
(output has never been enabled yet); the remaining 991 row blocks are OE-low
outside their latch/address windows; the final word is OE-high. -/
def oeProfile : List Bool :=
  true :: ((rowOe true ++ (List.replicate 991 (rowOe false)).flatten) ++ [true])

/-- Word index `i` of the program lies in the latch/address-change window of
some row block: row blocks are 197 words long and start at index 1, and the
window is the four consecutive OE-high words at offsets 192-195 of a block. -/
def latchWindowIdx (i : Nat) : Prop :=
  ∃ r k, r < 992 ∧ 192 ≤ k ∧ k ≤ 195 ∧ i = 1 + 197 * r + k

/-- All six RGB data bits (mainCfg pins 12-17) of a word are low. -/
def rgbZero (w : Nat) : Prop :=
  w.testBit 12 = false ∧ w.testBit 13 = false ∧ w.testBit 14 = false ∧
  w.testBit 15 = false ∧ w.testBit 16 = false ∧ w.testBit 17 = false

/-- The data-line pattern the code actually produces for an all-red (255,0,0)
frame: G1 (13) and G2 (16) high, R1/B1/R2/B2 (12, 14, 15, 17) low — the source
feeds pixel channel 2 to R1/R2, channel 0 to G1/G2 and channel 1 to B1/B2. -/
def redFramePat (w : Nat) : Prop :=
  w.testBit 13 = true ∧ w.testBit 16 = true ∧ w.testBit 12 = false ∧
  w.testBit 14 = false ∧ w.testBit 15 = false ∧ w.testBit 17 = false

/-- Two words agree on the latch bit (9) and the five address bits (4-8). -/
def latAddrEq (w v : Nat) : Prop :=
  w.testBit 4 = v.testBit 4 ∧ w.testBit 5 = v.testBit 5 ∧
  w.testBit 6 = v.testBit 6 ∧ w.testBit 7 = v.testBit 7 ∧
  w.testBit 8 = v.testBit 8 ∧ w.testBit 9 = v.testBit 9

/-- Between two consecutive words, a change of the latch bit or of any row
address bit happens only with output disabled (OE bit high) on both sides. -/
def ctrlP (w v : Nat) : Prop :=
  ¬ latAddrEq w v → (w.testBit 10 = true ∧ v.testBit 10 = true)

/-- The pairwise property claim C6 literally asserts: a change of the CLOCK
bit (3), the latch bit or any address bit between consecutive words requires
output disabled on both sides. -/
def c6ClaimP (w v : Nat) : Prop :=
  (w.testBit 3 ≠ v.testBit 3 ∨ ¬ latAddrEq w v) →
    (w.testBit 10 = true ∧ v.testBit 10 = true)

/-- Every set bit of the word belongs to the driven-pin mask of `mainCfg`. -/
def drivenOnly (w : Nat) : Prop :=
  ∀ i, w.testBit i = true → (get_all_pin_mask mainCfg).testBit i = true

/-- The `Color` struct of src/panel.rs lines 59-72. -/
structure Color where
  r : Nat
  g : Nat
  b : Nat
deriving DecidableEq, Repr

/-- `Color::BLACK`. -/
def Color.BLACK : Color := ⟨0, 0, 0⟩

/-- The `FrameBuffer` struct of src/panel.rs lines 75-79 (`Vec<Color>` plus
dimensions). -/
structure FrameBuffer where
  data : List Color
  width : Nat
  height : Nat
deriving DecidableEq, Repr

/-- `FrameBuffer::new` (src/panel.rs lines 82-88): `vec![BLACK; w*h]`. -/
def FrameBuffer.new (width height : Nat) : FrameBuffer :=
  ⟨List.replicate (width * height) Color.BLACK, width, height⟩

/-- `FrameBuffer::fill` (src/panel.rs lines 90-92). -/
def FrameBuffer.fill (fb : FrameBuffer) (color : Color) : FrameBuffer :=
  { fb with data := List.replicate fb.data.length color }

/-- `FrameBuffer::set_pixel` (src/panel.rs lines 94-98): in-bounds guard, then
`data[y * width + x] = color` (`List.set` embeds the in-bounds store). -/
def FrameBuffer.set_pixel (fb : FrameBuffer) (x y : Nat) (color : Color) :
    FrameBuffer :=
  if x < fb.width ∧ y < fb.height then
    { fb with data := fb.data.set (y * fb.width + x) color }
  else
    fb

/-- `FrameBuffer::get_pixel` (src/panel.rs lines 100-106): in-bounds read, else
`Color::BLACK` (`getD` with default BLACK embeds the in-range indexing of the
taken branch). -/
def FrameBuffer.get_pixel (fb : FrameBuffer) (x y : Nat) : Color :=
  if x < fb.width ∧ y < fb.height then
    fb.data.getD (y * fb.width + x) Color.BLACK
  else
    Color.BLACK

/-- The `Frame` bit-plane buffer of src/main.rs line 29: `[[[u8; 64]; 32]; 3]`,
i.e. planes, then 32 rows, then 64 columns. -/
def Frame : Type := List (List (List Nat))

/-- In-place update of one list element (the effect of an array-element
assignment at an in-range index). -/
def updAt {α : Type} (l : List α) (i : Nat) (f : α → α) : List α :=
  match l, i with
  | [], _ => []
  | x :: xs, 0 => f x :: xs
  | x :: xs, i + 1 => x :: updAt xs i f

/-- `buffer[plane][row][col] |= m`. -/
def orAt3 (buf : Frame) (plane row col m : Nat) : Frame :=
  updAt buf plane (fun pl => updAt pl row (fun rw => updAt rw col (fun v => v ||| m)))

/-- `set_pixel` from src/main.rs lines 95-145: the bit-plane framebuffer
writer.  Out-of-bounds coordinates return the buffer unchanged; otherwise each
plane ORs the per-channel bits into the cell, with the RGB1 masks
(128/64/16) for the top half and the RGB2 masks (8/2/1) for the bottom half. -/
def set_pixel (buffer : Frame) (x y r g b : Nat) : Frame :=
  if x ≥ 64 ∨ y ≥ 64 then
    buffer
  else
    let bit_depth := buffer.length
    let row := y % 32
    let col := x
    (List.range bit_depth).foldl (fun buf plane =>
      let bit_position := plane + 8 - bit_depth
      let rBit := (r >>> bit_position) &&& 1
      let gBit := (g >>> bit_position) &&& 1
      let bBit := (b >>> bit_position) &&& 1
      if y < 32 then
        let buf2 := if rBit > 0 then orAt3 buf plane row col 128 else buf
        let buf3 := if gBit > 0 then orAt3 buf2 plane row col 64 else buf2
        if bBit > 0 then orAt3 buf3 plane row col 16 else buf3
      else
        let buf2 := if rBit > 0 then orAt3 buf plane row col 8 else buf
        let buf3 := if gBit > 0 then orAt3 buf2 plane row col 2 else buf2
        if bBit > 0 then orAt3 buf3 plane row col 1 else buf3) buffer

/-- The invariant "every emitted word and the resulting state only drive the
configured pins", as a property of a word emitter. -/
def PInvariant (f : Nat → List Nat × Nat) : Prop :=
  ∀ s, drivenOnly s → (∀ w ∈ (f s).1, drivenOnly w) ∧ drivenOnly (f s).2

/-- Generic invariant of a word emitter: if the incoming state satisfies `P`,
every emitted word and the resulting state satisfy `P`. -/
def EmitInv (P : Nat → Prop) (f : Nat → List Nat × Nat) : Prop :=
  ∀ s, P s → (∀ w ∈ (f s).1, P w) ∧ P (f s).2

/-- A word emitter is chain-good for `ctrlP`: anchored at any previous word
that agrees with the incoming state on the latch/address bits, the emitted
words form a `ctrlP` chain, and the last emitted word (or the anchor, when
nothing is emitted) agrees with the resulting state on the latch/address
bits. -/
def GoodEmit (f : Nat → List Nat × Nat) : Prop :=
  ∀ s anchor, latAddrEq anchor s →
    List.Chain ctrlP anchor (f s).1 ∧
    latAddrEq (((f s).1).getLastD anchor) (f s).2

/-- The OE half of claim C5 as literally stated: the OE bit is asserted only
at latch/address-window indices, nowhere else in the program. -/
def oeOnlyInWindows (L : List Nat) : Prop :=
  ∀ i, ∀ hi : i < L.length, oeBit (L.get ⟨i, hi⟩) = true → latchWindowIdx i

/-!
Basic lemmas: bit-level behaviour of the GPIO word operations, equations for
the loop recursions, and length facts.
-/

theorem testBit_shift1 (p i : Nat) : ((1 <<< p : Nat)).testBit i = decide (p = i) := by
  rw [Nat.shiftLeft_eq, one_mul, Nat.testBit_two_pow]

theorem mask32_testBit (i : Nat) : (0xFFFFFFFF : Nat).testBit i = decide (i < 32) := by
  have h : (0xFFFFFFFF : Nat) = 2 ^ 32 - 1 := by norm_num
  rw [h, Nat.testBit_two_pow_sub_one]

theorem testBit_setPin (s p i : Nat) :
    (setPin s p).testBit i = (s.testBit i || decide (p = i)) := by
  unfold setPin
  rw [Nat.testBit_lor, testBit_shift1]

theorem testBit_clearPin (s p i : Nat) (hi : i < 32) :
    (clearPin s p).testBit i = (s.testBit i && !decide (p = i)) := by
  unfold clearPin
  rw [Nat.testBit_land, Nat.testBit_xor, mask32_testBit, testBit_shift1]
  simp [hi]

theorem testBit_applyBit (s p bv i : Nat) (hi : i < 32) :
    (applyBit s p bv).testBit i =
      (if p = i then decide (bv ≠ 0) else s.testBit i) := by
  unfold applyBit
  split
  · rename_i hb
    rw [testBit_setPin]
    by_cases hpi : p = i <;> simp [hpi, hb]
  · rename_i hb
    rw [testBit_clearPin _ _ _ hi]
    by_cases hpi : p = i <;> simp [hpi, hb]

theorem emitSeq_fst (f g : Nat → List Nat × Nat) (s : Nat) :
    (emitSeq f g s).1 = (f s).1 ++ (g (f s).2).1 := rfl

theorem emitSeq_snd (f g : Nat → List Nat × Nat) (s : Nat) :
    (emitSeq f g s).2 = (g (f s).2).2 := rfl

theorem colsFrom_succ (cfg : PinCfg) (img : RgbImage) (bitPlane row col n s : Nat) :
    colsFrom cfg img bitPlane row col (n + 1) s =
      emitSeq (colStep cfg img bitPlane row col)
        (fun t => colsFrom cfg img bitPlane row (col + 1) n t) s := rfl

theorem rowsFrom_succ (cfg : PinCfg) (img : RgbImage) (bitPlane row n s : Nat) :
    rowsFrom cfg img bitPlane row (n + 1) s =
      emitSeq (rowStep cfg img bitPlane row)
        (fun t => rowsFrom cfg img bitPlane (row + 1) n t) s := rfl

theorem repeatScan_succ (cfg : PinCfg) (img : RgbImage) (bitPlane n s : Nat) :
    repeatScan cfg img bitPlane (n + 1) s =
      emitSeq (scanStep cfg img bitPlane) (repeatScan cfg img bitPlane n) s := rfl

theorem planesDown_succ (cfg : PinCfg) (img : RgbImage) (p s : Nat) :
    planesDown cfg img (p + 1) s =
      emitSeq (repeatScan cfg img p (1 <<< p)) (planesDown cfg img p) s := rfl

theorem getLastD_append (l1 l2 : List Nat) (d : Nat) :
    (l1 ++ l2).getLastD d = l2.getLastD (l1.getLastD d) := by
  induction l1 generalizing d with
  | nil => rfl
  | cons a t ih => simp only [List.cons_append, List.getLastD_cons, ih]

theorem chainAppend {R : Nat → Nat → Prop} {a : Nat} {l1 l2 : List Nat}
    (h1 : List.Chain R a l1) (h2 : List.Chain R (l1.getLastD a) l2) :
    List.Chain R a (l1 ++ l2) := by
  induction l1 generalizing a with
  | nil => exact h2
  | cons x t ih =>
      rw [List.getLastD_cons] at h2
      rcases h1 with _ | ⟨hax, hxt⟩
      exact List.Chain.cons hax (ih hxt h2)

theorem colStep_len (cfg : PinCfg) (img : RgbImage) (bitPlane row col s : Nat) :
    ((colStep cfg img bitPlane row col s).1).length = 3 := rfl

theorem colsFrom_len (cfg : PinCfg) (img : RgbImage) (bitPlane row : Nat) :
    ∀ n col s, ((colsFrom cfg img bitPlane row col n s).1).length = 3 * n := by
  intro n
  induction n with
  | zero => intro col s; rfl
  | succ m ih =>
      intro col s
      rw [colsFrom_succ, emitSeq_fst, List.length_append, colStep_len, ih]
      omega

theorem rowStep_len (cfg : PinCfg) (img : RgbImage) (bitPlane row s : Nat) :
    ((rowStep cfg img bitPlane row s).1).length = 197 := by
  unfold rowStep
  rw [List.length_append, colsFrom_len]
  rfl

theorem rowsFrom_len (cfg : PinCfg) (img : RgbImage) (bitPlane : Nat) :
    ∀ n row s, ((rowsFrom cfg img bitPlane row n s).1).length = 197 * n := by
  intro n
  induction n with
  | zero => intro row s; rfl
  | succ m ih =>
      intro row s
      rw [rowsFrom_succ, emitSeq_fst, List.length_append, rowStep_len, ih]
      omega

theorem scanStep_len (cfg : PinCfg) (img : RgbImage) (bitPlane s : Nat) :
    ((scanStep cfg img bitPlane s).1).length = 6304 := by
  unfold scanStep
  rw [rowsFrom_len]

theorem repeatScan_len (cfg : PinCfg) (img : RgbImage) (bitPlane : Nat) :
    ∀ n s, ((repeatScan cfg img bitPlane n s).1).length = 6304 * n := by
  intro n
  induction n with
  | zero => intro s; rfl
  | succ m ih =>
      intro s
      rw [repeatScan_succ, emitSeq_fst, List.length_append, scanStep_len, ih]
      omega

theorem planesDown_len (cfg : PinCfg) (img : RgbImage) :
    ∀ p s, ((planesDown cfg img p s).1).length = (2 ^ p - 1) * 6304 := by
  intro p
  induction p with
  | zero => intro s; rfl
  | succ q ih =>
      intro s
      rw [planesDown_succ, emitSeq_fst, List.length_append, repeatScan_len, ih]
      have hq : 1 ≤ 2 ^ q := Nat.one_le_two_pow
      have hs : (1 <<< q : Nat) = 2 ^ q := by rw [Nat.shiftLeft_eq, one_mul]
      rw [hs, pow_succ]
      omega

theorem renderProgram_len (cfg : PinCfg) (img : RgbImage) :
    (renderProgram cfg img).length = 195426 := by
  unfold renderProgram
  rw [List.length_cons, List.length_append, planesDown_len]
  norm_num

/-!
Color-correction lemmas (claim C8) and the quickly-settled claims C2, C4, C7
and C10.
-/

theorem mono_of_step (f : Nat → Nat) (hf : ∀ m, m < 255 → f m ≤ f (m + 1)) :
    ∀ a b, a ≤ b → b ≤ 255 → f a ≤ f b := by
  intro a b
  induction b with
  | zero =>
      intro hab _
      have ha : a = 0 := Nat.le_zero.mp hab
      simp [ha]
  | succ k ih =>
      intro hab hk
      by_cases heq : a = k + 1
      · subst heq; exact le_refl _
      · exact le_trans (ih (by omega) (by omega)) (hf k (by omega))

theorem lc_step : ∀ m, m < 255 → lightness_correct m ≤ lightness_correct (m + 1) := by
  decide

theorem gamma_step : ∀ m, m < 255 → gamma_correct m ≤ gamma_correct (m + 1) := by
  decide

/-- C8: for all v in [0,255], `lightness_correct` and `gamma_correct` are
monotonic non-decreasing in v, and both map 0 to 0 and 255 to 255. -/
theorem c8_monotone_endpoints :
    (∀ a b, a ≤ b → b ≤ 255 → lightness_correct a ≤ lightness_correct b) ∧
    (∀ a b, a ≤ b → b ≤ 255 → gamma_correct a ≤ gamma_correct b) ∧
    lightness_correct 0 = 0 ∧ lightness_correct 255 = 255 ∧
    gamma_correct 0 = 0 ∧ gamma_correct 255 = 255 := by
  refine ⟨mono_of_step _ lc_step, mono_of_step _ gamma_step, ?_, ?_, ?_, ?_⟩ <;> decide

/-- C8 witness: both correction curves evaluated at the concrete pair 10 ≤ 200. -/
theorem c8_witness :
    (10 ≤ 200 ∧ 200 ≤ 255) ∧
    lightness_correct 10 ≤ lightness_correct 200 ∧
    gamma_correct 10 ≤ gamma_correct 200 :=
  ⟨by decide,
   c8_monotone_endpoints.1 10 200 (by decide) (by decide),
   c8_monotone_endpoints.2.1 10 200 (by decide) (by decide)⟩

/-- C10: out-of-bounds pixel access is total and side-effect free: for x ≥
width or y ≥ height, `FrameBuffer::set_pixel` leaves the buffer unchanged and
`FrameBuffer::get_pixel` returns `Color::BLACK` (both stay in the non-indexing
branch, so neither can panic), and the bit-plane `set_pixel` of src/main.rs
returns the frame unchanged when x ≥ 64 or y ≥ 64. -/
theorem c10_oob_safe :
    (∀ (fb : FrameBuffer) (x y : Nat) (color : Color),
        x ≥ fb.width ∨ y ≥ fb.height →
        fb.set_pixel x y color = fb ∧ fb.get_pixel x y = Color.BLACK) ∧
    (∀ (buffer : Frame) (x y r g b : Nat),
        x ≥ 64 ∨ y ≥ 64 → set_pixel buffer x y r g b = buffer) := by
  constructor
  · intro fb x y color h
    have hneg : ¬(x < fb.width ∧ y < fb.height) := by rcases h with h | h <;> omega
    constructor
    · unfold FrameBuffer.set_pixel
      rw [if_neg hneg]
    · unfold FrameBuffer.get_pixel
      rw [if_neg hneg]
  · intro buffer x y r g b h
    unfold set_pixel
    rw [if_pos h]

/-- C10 witness: concrete out-of-bounds accesses on a fresh 64x64 buffer and
on a bit-plane frame. -/
theorem c10_witness :
    ((64 ≥ (FrameBuffer.new 64 64).width ∨ 0 ≥ (FrameBuffer.new 64 64).height) ∧
      (FrameBuffer.new 64 64).set_pixel 64 0 Color.BLACK = FrameBuffer.new 64 64 ∧
      (FrameBuffer.new 64 64).get_pixel 64 0 = Color.BLACK) ∧
    ((0 ≥ 64 ∨ 64 ≥ 64) ∧ set_pixel [] 0 64 9 9 9 = ([] : Frame)) := by
  have h1 : 64 ≥ (FrameBuffer.new 64 64).width ∨ 0 ≥ (FrameBuffer.new 64 64).height :=
    Or.inl (by decide)
  have h2 : (0 : Nat) ≥ 64 ∨ (64 : Nat) ≥ 64 := Or.inr (by decide)
  exact ⟨⟨h1, c10_oob_safe.1 _ 64 0 Color.BLACK h1⟩,
         ⟨h2, c10_oob_safe.2 [] 0 64 9 9 9 h2⟩⟩

/-- C2 counterexample: `Pins::new` called with R1 and LAT both at bit 5 (all
other positions distinct and in range) SUCCEEDS — the source only asserts
`p < 32` over thirteen of the pins and performs no distinctness check at all,
so the claimed rejection (typed `ConfigError` on a duplicate position) does
not happen. -/
theorem c2_counterexample :
    pinsNew 5 0 1 2 3 4 6 7 8 9 14 11 5 12 =
      Except.ok ⟨5, 0, 1, 2, 3, 4, 6, 7, 8, 9, 14, 11, 5, 12⟩ := rfl

/-- C2 amended: `Pins::new` validates only that the thirteen positions other
than E are below the 32-bit register width, panicking (not returning a typed
recoverable error) otherwise; it checks neither the E position nor pairwise
distinctness, so two roles at the same bit position are accepted. -/
theorem c2_amended (r1 g1 b1 r2 g2 b2 a b c d e clk lat oe : Nat) :
    (pinsNew r1 g1 b1 r2 g2 b2 a b c d e clk lat oe).isOk = true ↔
      (r1 < 32 ∧ g1 < 32 ∧ b1 < 32 ∧ r2 < 32 ∧ g2 < 32 ∧ b2 < 32 ∧
       a < 32 ∧ b < 32 ∧ c < 32 ∧ d < 32 ∧ clk < 32 ∧ lat < 32 ∧ oe < 32) := by
  unfold pinsNew
  split
  · rename_i h
    simp [Except.isOk, Except.toBool, h]
  · rename_i h
    simp [Except.isOk, Except.toBool, h]

/-- C4 counterexample: a 1x1 frame makes `render_unoptimized` fail by PANIC
(`assert!`), which is not the claimed recoverable `DimensionError` returned to
the caller. -/
theorem c4_counterexample :
    render_unoptimized mainCfg badImg = Except.error Failure.panic ∧
    (Except.error Failure.panic : Except Failure (List Nat)) ≠
      Except.error Failure.dimensionError :=
  ⟨rfl, by simp⟩

/-- C4 amended: `render_unoptimized` rejects every frame whose dimensions are
not exactly 64x64 — it never crops, pads or reshapes — but it does so by a
panicking assertion, not by returning a recoverable typed error. -/
theorem c4_amended (img : RgbImage) (h : ¬(img.width = 64 ∧ img.height = 64)) :
    render_unoptimized mainCfg img = Except.error Failure.panic := by
  unfold render_unoptimized
  rw [if_neg h]

/-- C4 witness: the amended rejection evaluated at the concrete 1x1 frame. -/
theorem c4_witness :
    ¬(badImg.width = 64 ∧ badImg.height = 64) ∧
    render_unoptimized mainCfg badImg = Except.error Failure.panic :=
  ⟨by decide, c4_amended badImg (by decide)⟩

/-- C7 counterexample: the program for the all-black frame has 195426 words,
which differs from the claimed closed form
`sum over p < 5 of 2^p * 32 * (1 + 64*3 + K)` under both readings of the
per-row count K of latch/address/output-enable words (K = 5: the five words
OE-up, LAT-down, LAT-up, address, OE-down; K = 4 if the leading `1 +` is taken
to count one of them): the code also emits one initial set-up word and one
final output-disable word that the formula does not account for. -/
theorem c7_counterexample :
    render_unoptimized mainCfg allBlackImg = Except.ok (renderProgram mainCfg allBlackImg) ∧
    (renderProgram mainCfg allBlackImg).length = 195426 ∧
    (renderProgram mainCfg allBlackImg).length ≠
      2 ^ 0 * (32 * (1 + 64 * 3 + 5)) + 2 ^ 1 * (32 * (1 + 64 * 3 + 5)) +
      2 ^ 2 * (32 * (1 + 64 * 3 + 5)) + 2 ^ 3 * (32 * (1 + 64 * 3 + 5)) +
      2 ^ 4 * (32 * (1 + 64 * 3 + 5)) ∧
    (renderProgram mainCfg allBlackImg).length ≠
      2 ^ 0 * (32 * (1 + 64 * 3 + 4)) + 2 ^ 1 * (32 * (1 + 64 * 3 + 4)) +
      2 ^ 2 * (32 * (1 + 64 * 3 + 4)) + 2 ^ 3 * (32 * (1 + 64 * 3 + 4)) +
      2 ^ 4 * (32 * (1 + 64 * 3 + 4)) := by
  refine ⟨rfl, renderProgram_len _ _, ?_, ?_⟩ <;> rw [renderProgram_len] <;> norm_num

/-- C7 amended: for every 64x64 frame the program length is exactly
`2 + sum over p < 5 of 2^p * (32 * 197)` = 195426: each row block is 197 words
(192 column words plus the five latch/address/output-enable words), and the
program additionally contains one initial set-up word and one final
output-disable word. -/
theorem c7_amended (img : RgbImage) (L : List Nat)
    (h : render_unoptimized mainCfg img = Except.ok L) :
    L.length = 2 + (2 ^ 4 * (32 * 197) + 2 ^ 3 * (32 * 197) + 2 ^ 2 * (32 * 197) +
      2 ^ 1 * (32 * 197) + 2 ^ 0 * (32 * 197)) := by
  unfold render_unoptimized at h
  split at h
  · cases h
    rw [renderProgram_len]
    norm_num
  · exact absurd h (by simp)

/-- C7 witness: the amended length evaluated on the all-black frame. -/
theorem c7_witness :
    render_unoptimized mainCfg allBlackImg = Except.ok (renderProgram mainCfg allBlackImg) ∧
    (renderProgram mainCfg allBlackImg).length = 2 + (2 ^ 4 * (32 * 197) +
      2 ^ 3 * (32 * 197) + 2 ^ 2 * (32 * 197) + 2 ^ 1 * (32 * 197) + 2 ^ 0 * (32 * 197)) :=
  ⟨rfl, c7_amended allBlackImg (renderProgram mainCfg allBlackImg) rfl⟩

/-!
Claim C1: plane order and BCM weights.
-/

theorem repeatScan_eq_blocks (cfg : PinCfg) (img : RgbImage) (bitPlane : Nat) :
    ∀ n s, (repeatScan cfg img bitPlane n s).1 =
      (scanBlocks cfg img bitPlane n s).flatten := by
  intro n
  induction n with
  | zero => intro s; rfl
  | succ m ih =>
      intro s
      rw [repeatScan_succ, emitSeq_fst, ih]
      simp [scanBlocks, List.flatten_cons]

theorem scanBlocks_count (cfg : PinCfg) (img : RgbImage) (bitPlane : Nat) :
    ∀ n s, (scanBlocks cfg img bitPlane n s).length = n := by
  intro n
  induction n with
  | zero => intro s; rfl
  | succ m ih =>
      intro s
      simp [scanBlocks, ih]

theorem scanBlocks_block_len (cfg : PinCfg) (img : RgbImage) (bitPlane : Nat) :
    ∀ n s blk, blk ∈ scanBlocks cfg img bitPlane n s → blk.length = 32 * 197 := by
  intro n
  induction n with
  | zero => intro s blk hm; simp [scanBlocks] at hm
  | succ m ih =>
      intro s blk hm
      rcases List.mem_cons.mp hm with rfl | hm2
      · rw [scanStep_len]
      · exact ih _ _ hm2

theorem planesDown_five (cfg : PinCfg) (img : RgbImage) (s : Nat) :
    (planesDown cfg img 5 s).1 =
      (repeatScan cfg img 4 16 s).1 ++
      ((repeatScan cfg img 3 8 (repeatScan cfg img 4 16 s).2).1 ++
       ((repeatScan cfg img 2 4
           (repeatScan cfg img 3 8 (repeatScan cfg img 4 16 s).2).2).1 ++
        ((repeatScan cfg img 1 2
            (repeatScan cfg img 2 4
              (repeatScan cfg img 3 8 (repeatScan cfg img 4 16 s).2).2).2).1 ++
         ((repeatScan cfg img 0 1
             (repeatScan cfg img 1 2
               (repeatScan cfg img 2 4
                 (repeatScan cfg img 3 8 (repeatScan cfg img 4 16 s).2).2).2).2).1 ++
          [])))) := rfl

/-- C1: BCM weight law — in the program of `render_unoptimized` (depth 5) the
planes are emitted from most significant (4) down to least significant (0),
and plane p contributes exactly 2^p consecutive full 32-row scan blocks of
32*197 words each; in particular the most significant plane contributes 2^4
consecutive full scans, starting right after the initial word, before the
program advances to plane 3. -/
theorem c1_bcm_weight_law (img : RgbImage) (L : List Nat)
    (h : render_unoptimized mainCfg img = Except.ok L) :
    ∃ s3 s2 s1 s0 w,
      L = initialState mainCfg ::
        ((scanBlocks mainCfg img 4 (2 ^ 4) (initialState mainCfg)).flatten ++
         ((scanBlocks mainCfg img 3 (2 ^ 3) s3).flatten ++
          ((scanBlocks mainCfg img 2 (2 ^ 2) s2).flatten ++
           ((scanBlocks mainCfg img 1 (2 ^ 1) s1).flatten ++
            ((scanBlocks mainCfg img 0 (2 ^ 0) s0).flatten ++ [w]))))) ∧
      (∀ p n s, (scanBlocks mainCfg img p n s).length = n) ∧
      (∀ p n s blk, blk ∈ scanBlocks mainCfg img p n s → blk.length = 32 * 197) := by
  unfold render_unoptimized at h
  split at h
  · cases h
    refine ⟨(repeatScan mainCfg img 4 16 (initialState mainCfg)).2,
            (repeatScan mainCfg img 3 8
              (repeatScan mainCfg img 4 16 (initialState mainCfg)).2).2,
            (repeatScan mainCfg img 2 4
              (repeatScan mainCfg img 3 8
                (repeatScan mainCfg img 4 16 (initialState mainCfg)).2).2).2,
            (repeatScan mainCfg img 1 2
              (repeatScan mainCfg img 2 4
                (repeatScan mainCfg img 3 8
                  (repeatScan mainCfg img 4 16 (initialState mainCfg)).2).2).2).2,
            setPin (planesDown mainCfg img 5 (initialState mainCfg)).2 mainCfg.oe,
            ?_, scanBlocks_count mainCfg img, scanBlocks_block_len mainCfg img⟩
    unfold renderProgram
    rw [planesDown_five]
    rw [repeatScan_eq_blocks, repeatScan_eq_blocks, repeatScan_eq_blocks,
        repeatScan_eq_blocks, repeatScan_eq_blocks]
    norm_num
  · exact absurd h (by simp)

/-- C1 witness: the decomposition evaluated on the all-white frame (its most
significant plane contributes 2^4 = 16 consecutive full 32-row scans before
the program moves to plane 3). -/
theorem c1_witness :
    render_unoptimized mainCfg allWhiteImg = Except.ok (renderProgram mainCfg allWhiteImg) ∧
    (∃ s3 s2 s1 s0 w,
      renderProgram mainCfg allWhiteImg = initialState mainCfg ::
        ((scanBlocks mainCfg allWhiteImg 4 (2 ^ 4) (initialState mainCfg)).flatten ++
         ((scanBlocks mainCfg allWhiteImg 3 (2 ^ 3) s3).flatten ++
          ((scanBlocks mainCfg allWhiteImg 2 (2 ^ 2) s2).flatten ++
           ((scanBlocks mainCfg allWhiteImg 1 (2 ^ 1) s1).flatten ++
            ((scanBlocks mainCfg allWhiteImg 0 (2 ^ 0) s0).flatten ++ [w]))))) ∧
      (∀ p n s, (scanBlocks mainCfg allWhiteImg p n s).length = n) ∧
      (∀ p n s blk, blk ∈ scanBlocks mainCfg allWhiteImg p n s → blk.length = 32 * 197)) :=
  ⟨rfl, c1_bcm_weight_law allWhiteImg (renderProgram mainCfg allWhiteImg) rfl⟩

/-!
Claim C9: every emitted word only drives the 14 configured pins.
-/

theorem setPin_eq_applyBit (s p : Nat) : setPin s p = applyBit s p 1 := by
  simp [applyBit]

theorem clearPin_eq_applyBit (s p : Nat) : clearPin s p = applyBit s p 0 := by
  simp [applyBit]

theorem drivenOnly_zero : drivenOnly 0 := by
  intro i hi
  rw [Nat.zero_testBit] at hi
  exact absurd hi (by simp)

theorem drivenOnly_clearPin (s p : Nat) (hs : drivenOnly s) :
    drivenOnly (clearPin s p) := by
  intro i hi
  unfold clearPin at hi
  rw [Nat.testBit_land] at hi
  exact hs i (Bool.and_eq_true_iff.mp hi).1

theorem drivenOnly_setPin (s p : Nat)
    (hp : (get_all_pin_mask mainCfg).testBit p = true) (hs : drivenOnly s) :
    drivenOnly (setPin s p) := by
  intro i hi
  rw [testBit_setPin] at hi
  rcases Bool.or_eq_true_iff.mp hi with h | h
  · exact hs i h
  · have hpi : p = i := of_decide_eq_true h
    rw [← hpi]
    exact hp

theorem drivenOnly_applyBit (s p bv : Nat)
    (hp : (get_all_pin_mask mainCfg).testBit p = true) (hs : drivenOnly s) :
    drivenOnly (applyBit s p bv) := by
  unfold applyBit
  split
  · exact drivenOnly_setPin s p hp hs
  · exact drivenOnly_clearPin s p hs

theorem pinv_emitSeq {f g : Nat → List Nat × Nat}
    (hf : PInvariant f) (hg : PInvariant g) : PInvariant (emitSeq f g) := by
  intro s hs
  obtain ⟨hfw, hfs⟩ := hf s hs
  obtain ⟨hgw, hgs⟩ := hg (f s).2 hfs
  refine ⟨?_, hgs⟩
  intro w hw
  rw [emitSeq_fst] at hw
  rcases List.mem_append.mp hw with h | h
  · exact hfw w h
  · exact hgw w h

theorem drivenOnly_rgbChain (s b1v b2v b3v b4v b5v b6v : Nat) (hs : drivenOnly s) :
    drivenOnly (applyBit (applyBit (applyBit (applyBit (applyBit (applyBit
      s mainCfg.r1 b1v) mainCfg.g1 b2v) mainCfg.b1 b3v)
      mainCfg.r2 b4v) mainCfg.g2 b5v) mainCfg.b2 b6v) := by
  apply drivenOnly_applyBit _ _ _ (by decide)
  apply drivenOnly_applyBit _ _ _ (by decide)
  apply drivenOnly_applyBit _ _ _ (by decide)
  apply drivenOnly_applyBit _ _ _ (by decide)
  apply drivenOnly_applyBit _ _ _ (by decide)
  apply drivenOnly_applyBit _ _ _ (by decide)
  exact hs

theorem pinv_colStep (img : RgbImage) (bitPlane row col : Nat) :
    PInvariant (colStep mainCfg img bitPlane row col) := by
  intro s hs
  simp only [colStep]
  have h1 : drivenOnly (applyBit (applyBit (applyBit (applyBit (applyBit (applyBit
      s mainCfg.r1 ((lightness_correct (img.pix col row 2) >>> (8 - 5 + bitPlane)) &&& 1))
      mainCfg.g1 ((lightness_correct (img.pix col row 0) >>> (8 - 5 + bitPlane)) &&& 1))
      mainCfg.b1 ((lightness_correct (img.pix col row 1) >>> (8 - 5 + bitPlane)) &&& 1))
      mainCfg.r2 ((lightness_correct (img.pix col (row + 32) 2) >>> (8 - 5 + bitPlane)) &&& 1))
      mainCfg.g2 ((lightness_correct (img.pix col (row + 32) 0) >>> (8 - 5 + bitPlane)) &&& 1))
      mainCfg.b2 ((lightness_correct (img.pix col (row + 32) 1) >>> (8 - 5 + bitPlane)) &&& 1)) :=
    drivenOnly_rgbChain s _ _ _ _ _ _ hs
  have h2 := drivenOnly_clearPin _ mainCfg.clk h1
  have h3 := drivenOnly_setPin _ mainCfg.clk (by decide) h2
  refine ⟨?_, h3⟩
  intro w hw
  simp only [List.mem_cons, List.not_mem_nil, or_false] at hw
  rcases hw with rfl | rfl | rfl
  · exact h1
  · exact h2
  · exact h3

theorem pinv_colsFrom (img : RgbImage) (bitPlane row : Nat) :
    ∀ n col, PInvariant (fun s => colsFrom mainCfg img bitPlane row col n s) := by
  intro n
  induction n with
  | zero =>
      intro col s hs
      exact ⟨by intro w hw; simp [colsFrom] at hw, hs⟩
  | succ m ih =>
      intro col
      exact pinv_emitSeq (pinv_colStep img bitPlane row col) (ih (col + 1))

theorem drivenOnly_setAddr (row s : Nat) (hs : drivenOnly s) :
    drivenOnly (setAddr mainCfg row s) := by
  unfold setAddr
  apply drivenOnly_applyBit _ _ _ (by decide)
  apply drivenOnly_applyBit _ _ _ (by decide)
  apply drivenOnly_applyBit _ _ _ (by decide)
  apply drivenOnly_applyBit _ _ _ (by decide)
  apply drivenOnly_applyBit _ _ _ (by decide)
  exact hs

theorem drivenOnly_clearRgb (s : Nat) (hs : drivenOnly s) :
    drivenOnly (clearRgb mainCfg s) := by
  unfold clearRgb
  exact drivenOnly_clearPin _ _ (drivenOnly_clearPin _ _ (drivenOnly_clearPin _ _
    (drivenOnly_clearPin _ _ (drivenOnly_clearPin _ _ (drivenOnly_clearPin _ _ hs)))))

theorem pinv_rowStep (img : RgbImage) (bitPlane row : Nat) :
    PInvariant (rowStep mainCfg img bitPlane row) := by
  intro s hs
  obtain ⟨hcw, hcs⟩ :=
    pinv_colsFrom img bitPlane row 64 0 (clearRgb mainCfg s) (drivenOnly_clearRgb s hs)
  simp only [rowStep]
  have h1 := drivenOnly_setPin _ mainCfg.oe (by decide) hcs
  have h2 := drivenOnly_clearPin _ mainCfg.lat h1
  have h3 := drivenOnly_setPin _ mainCfg.lat (by decide) h2
  have h4 := drivenOnly_setAddr row _ h3
  have h5 := drivenOnly_clearPin _ mainCfg.oe h4
  refine ⟨?_, h5⟩
  intro w hw
  rcases List.mem_append.mp hw with h | h
  · exact hcw w h
  · simp only [List.mem_cons, List.not_mem_nil, or_false] at h
    rcases h with rfl | rfl | rfl | rfl | rfl
    · exact h1
    · exact h2
    · exact h3
    · exact h4
    · exact h5

theorem pinv_rowsFrom (img : RgbImage) (bitPlane : Nat) :
    ∀ n row, PInvariant (fun s => rowsFrom mainCfg img bitPlane row n s) := by
  intro n
  induction n with
  | zero =>
      intro row s hs
      exact ⟨by intro w hw; simp [rowsFrom] at hw, hs⟩
  | succ m ih =>
      intro row
      exact pinv_emitSeq (pinv_rowStep img bitPlane row) (ih (row + 1))

theorem pinv_repeatScan (img : RgbImage) (bitPlane : Nat) :
    ∀ n, PInvariant (repeatScan mainCfg img bitPlane n) := by
  intro n
  induction n with
  | zero =>
      intro s hs
      exact ⟨by intro w hw; simp [repeatScan] at hw, hs⟩
  | succ m ih =>
      exact pinv_emitSeq (pinv_rowsFrom img bitPlane 32 0) ih

theorem pinv_planesDown (img : RgbImage) :
    ∀ p, PInvariant (planesDown mainCfg img p) := by
  intro p
  induction p with
  | zero =>
      intro s hs
      exact ⟨by intro w hw; simp [planesDown] at hw, hs⟩
  | succ q ih =>
      exact pinv_emitSeq (pinv_repeatScan img q (1 <<< q)) ih

theorem drivenOnly_initialState : drivenOnly (initialState mainCfg) := by
  unfold initialState
  exact drivenOnly_setPin _ _ (by decide) (drivenOnly_setPin _ _ (by decide)
    (drivenOnly_setPin _ _ (by decide) drivenOnly_zero))

theorem drivenOnly_masked (w : Nat) (h : drivenOnly w) :
    w &&& (0xFFFFFFFF ^^^ get_all_pin_mask mainCfg) = 0 := by
  apply Nat.eq_of_testBit_eq
  intro i
  rw [Nat.testBit_land, Nat.testBit_xor, mask32_testBit, Nat.zero_testBit]
  cases hw : w.testBit i with
  | false => simp
  | true =>
      have hm := h i hw
      rcases Nat.lt_or_ge i 32 with hi | hi
      · simp [hm, hi]
      · exfalso
        have hlt : get_all_pin_mask mainCfg < 2 ^ i :=
          lt_of_lt_of_le (show get_all_pin_mask mainCfg < 2 ^ 32 by decide)
            (Nat.pow_le_pow_right (by norm_num) hi)
        rw [Nat.testBit_eq_false_of_lt hlt] at hm
        exact absurd hm (by simp)

theorem renderProgram_drivenOnly (img : RgbImage) :
    ∀ w ∈ renderProgram mainCfg img, drivenOnly w := by
  intro w hw
  unfold renderProgram at hw
  obtain ⟨hbw, hbs⟩ :=
    pinv_planesDown img 5 (initialState mainCfg) drivenOnly_initialState
  rcases List.mem_cons.mp hw with rfl | hw2
  · exact drivenOnly_initialState
  · rcases List.mem_append.mp hw2 with h | h
    · exact hbw w h
    · simp only [List.mem_cons, List.not_mem_nil, or_false] at h
      rw [h]
      exact drivenOnly_setPin _ _ (by decide) hbs

/-- C9: driven-pin mask invariant — every BusWord produced by
`render_unoptimized` has set bits only at the 14 driven pins: ANDing any word
with the 32-bit complement of `get_all_pin_mask()` yields 0. -/
theorem c9_driven_mask (img : RgbImage) (L : List Nat)
    (h : render_unoptimized mainCfg img = Except.ok L) :
    ∀ w ∈ L, w &&& (0xFFFFFFFF ^^^ get_all_pin_mask mainCfg) = 0 := by
  unfold render_unoptimized at h
  split at h
  · cases h
    intro w hw
    exact drivenOnly_masked w (renderProgram_drivenOnly img w hw)
  · exact absurd h (by simp)

/-- C9 witness: the mask invariant evaluated on the all-black frame's program. -/
theorem c9_witness :
    render_unoptimized mainCfg allBlackImg = Except.ok (renderProgram mainCfg allBlackImg) ∧
    (∀ w ∈ renderProgram mainCfg allBlackImg,
      w &&& (0xFFFFFFFF ^^^ get_all_pin_mask mainCfg) = 0) :=
  ⟨rfl, c9_driven_mask allBlackImg (renderProgram mainCfg allBlackImg) rfl⟩

/-!
Claim C5: output-enable profile and RGB bits of the all-black program.
-/

theorem oeBit_setPin_oe (x : Nat) : oeBit (setPin x mainCfg.oe) = true := by
  simp [oeBit, testBit_setPin, mainCfg]

theorem oeBit_clearPin_oe (x : Nat) : oeBit (clearPin x mainCfg.oe) = false := by
  simp [oeBit, testBit_clearPin, mainCfg]

theorem oeBit_setPin_lat (x : Nat) : oeBit (setPin x mainCfg.lat) = oeBit x := by
  simp [oeBit, testBit_setPin, mainCfg]

theorem oeBit_clearPin_lat (x : Nat) : oeBit (clearPin x mainCfg.lat) = oeBit x := by
  simp [oeBit, testBit_clearPin, mainCfg]

theorem oeBit_setAddr (row x : Nat) : oeBit (setAddr mainCfg row x) = oeBit x := by
  simp [setAddr, oeBit, testBit_applyBit, mainCfg]

theorem oeBit_clearRgb (x : Nat) : oeBit (clearRgb mainCfg x) = oeBit x := by
  simp [clearRgb, oeBit, testBit_clearPin, mainCfg]

theorem oeBit_colStep (img : RgbImage) (bitPlane row col s : Nat) :
    List.map oeBit (colStep mainCfg img bitPlane row col s).1 =
      List.replicate 3 (oeBit s) ∧
    oeBit (colStep mainCfg img bitPlane row col s).2 = oeBit s := by
  constructor
  · simp only [colStep, List.map_cons, List.map_nil]
    simp [oeBit, testBit_setPin, testBit_clearPin, testBit_applyBit, mainCfg,
      List.replicate_succ]
  · simp only [colStep]
    simp [oeBit, testBit_setPin, testBit_clearPin, testBit_applyBit, mainCfg]

theorem oeBit_colsFrom (img : RgbImage) (bitPlane row : Nat) :
    ∀ n col s,
      List.map oeBit (colsFrom mainCfg img bitPlane row col n s).1 =
        List.replicate (3 * n) (oeBit s) ∧
      oeBit (colsFrom mainCfg img bitPlane row col n s).2 = oeBit s := by
  intro n
  induction n with
  | zero => intro col s; exact ⟨rfl, rfl⟩
  | succ m ih =>
      intro col s
      obtain ⟨hw, hs2⟩ := oeBit_colStep img bitPlane row col s
      obtain ⟨ihw, ihs⟩ := ih (col + 1) (colStep mainCfg img bitPlane row col s).2
      constructor
      · rw [colsFrom_succ, emitSeq_fst, List.map_append, hw, ihw, hs2]
        rw [show 3 * (m + 1) = 3 + 3 * m by ring, List.replicate_add]
      · rw [colsFrom_succ, emitSeq_snd, ihs, hs2]

theorem oeBit_rowStep (img : RgbImage) (bitPlane row s : Nat) :
    List.map oeBit (rowStep mainCfg img bitPlane row s).1 = rowOe (oeBit s) ∧
    oeBit (rowStep mainCfg img bitPlane row s).2 = false := by
  obtain ⟨hcw, hcs⟩ := oeBit_colsFrom img bitPlane row 64 0 (clearRgb mainCfg s)
  rw [oeBit_clearRgb] at hcw hcs
  constructor
  · simp only [rowStep, List.map_append, List.map_cons, List.map_nil, hcw,
      oeBit_setPin_oe, oeBit_clearPin_oe, oeBit_setPin_lat, oeBit_clearPin_lat,
      oeBit_setAddr, rowOe]
  · simp only [rowStep, oeBit_clearPin_oe]

theorem flatten_repl_merge {α : Type} (x : List α) (m k : Nat) :
    (List.replicate m x).flatten ++ (x ++ (List.replicate k x).flatten) =
      (List.replicate (m + (k + 1)) x).flatten := by
  rw [show m + (k + 1) = m + (1 + k) by ring, List.replicate_add,
    List.flatten_append, show (1 + k) = k + 1 by ring, List.replicate_succ,
    List.flatten_cons]

theorem oeBit_rowsFrom (img : RgbImage) (bitPlane : Nat) :
    ∀ n row s,
      List.map oeBit (rowsFrom mainCfg img bitPlane row (n + 1) s).1 =
        rowOe (oeBit s) ++ (List.replicate n (rowOe false)).flatten ∧
      oeBit (rowsFrom mainCfg img bitPlane row (n + 1) s).2 = false := by
  intro n
  induction n with
  | zero =>
      intro row s
      obtain ⟨h1, h2⟩ := oeBit_rowStep img bitPlane row s
      constructor
      · rw [rowsFrom_succ, emitSeq_fst, List.map_append, h1]
        simp [rowsFrom]
      · rw [rowsFrom_succ, emitSeq_snd]
        simpa [rowsFrom] using h2
  | succ m ih =>
      intro row s
      obtain ⟨h1, h2⟩ := oeBit_rowStep img bitPlane row s
      obtain ⟨ih1, ih2⟩ := ih (row + 1) (rowStep mainCfg img bitPlane row s).2
      constructor
      · rw [rowsFrom_succ, emitSeq_fst, List.map_append, h1, ih1, h2,
          List.replicate_succ, List.flatten_cons]
      · rw [rowsFrom_succ, emitSeq_snd]
        exact ih2

theorem oeBit_scanStep (img : RgbImage) (bitPlane s : Nat) :
    List.map oeBit (scanStep mainCfg img bitPlane s).1 =
      rowOe (oeBit s) ++ (List.replicate 31 (rowOe false)).flatten ∧
    oeBit (scanStep mainCfg img bitPlane s).2 = false :=
  oeBit_rowsFrom img bitPlane 31 0 s

theorem colsFrom_zero (cfg : PinCfg) (img : RgbImage) (bitPlane row col s : Nat) :
    colsFrom cfg img bitPlane row col 0 s = ([], s) := rfl

theorem rowsFrom_zero (cfg : PinCfg) (img : RgbImage) (bitPlane row s : Nat) :
    rowsFrom cfg img bitPlane row 0 s = ([], s) := rfl

theorem repeatScan_zero (cfg : PinCfg) (img : RgbImage) (bitPlane s : Nat) :
    repeatScan cfg img bitPlane 0 s = ([], s) := rfl

theorem planesDown_zero (cfg : PinCfg) (img : RgbImage) (s : Nat) :
    planesDown cfg img 0 s = ([], s) := rfl

theorem oeBit_repeatScan (img : RgbImage) (bitPlane : Nat) :
    ∀ n s,
      List.map oeBit (repeatScan mainCfg img bitPlane (n + 1) s).1 =
        rowOe (oeBit s) ++ (List.replicate (32 * (n + 1) - 1) (rowOe false)).flatten ∧
      oeBit (repeatScan mainCfg img bitPlane (n + 1) s).2 = false := by
  intro n
  induction n with
  | zero =>
      intro s
      obtain ⟨h1, h2⟩ := oeBit_scanStep img bitPlane s
      constructor
      · rw [repeatScan_succ, emitSeq_fst, List.map_append, h1, repeatScan_zero]
        simp
      · rw [repeatScan_succ, emitSeq_snd, repeatScan_zero]
        exact h2
  | succ m ih =>
      intro s
      obtain ⟨h1, h2⟩ := oeBit_scanStep img bitPlane s
      obtain ⟨ih1, ih2⟩ := ih (scanStep mainCfg img bitPlane s).2
      constructor
      · rw [repeatScan_succ, emitSeq_fst, List.map_append, h1, ih1, h2,
          List.append_assoc, flatten_repl_merge,
          show 31 + ((32 * (m + 1) - 1) + 1) = 32 * (m + 1 + 1) - 1 by omega]
      · rw [repeatScan_succ, emitSeq_snd]
        exact ih2

theorem oeBit_planesDown (img : RgbImage) :
    ∀ p s, 1 ≤ p →
      List.map oeBit (planesDown mainCfg img p s).1 =
        rowOe (oeBit s) ++
          (List.replicate (32 * (2 ^ p - 1) - 1) (rowOe false)).flatten ∧
      oeBit (planesDown mainCfg img p s).2 = false := by
  intro p
  induction p with
  | zero => intro s h; exact absurd h (by norm_num)
  | succ q ih =>
      intro s _
      by_cases hq : q = 0
      · subst hq
        obtain ⟨h1, h2⟩ := oeBit_repeatScan img 0 0 s
        constructor
        · rw [planesDown_succ, emitSeq_fst, List.map_append,
            show (1 <<< 0 : Nat) = 0 + 1 from rfl, h1, planesDown_zero]
          simp
        · rw [planesDown_succ, emitSeq_snd,
            show (1 <<< 0 : Nat) = 0 + 1 from rfl, planesDown_zero]
          exact h2
      · have hq1 : 1 ≤ q := by omega
        have hpow : 1 ≤ 2 ^ q := Nat.one_le_two_pow
        have hshift : (1 <<< q : Nat) = (2 ^ q - 1) + 1 := by
          rw [Nat.shiftLeft_eq, one_mul]; omega
        obtain ⟨h1, h2⟩ := oeBit_repeatScan img q (2 ^ q - 1) s
        obtain ⟨ih1, ih2⟩ :=
          ih (repeatScan mainCfg img q ((2 ^ q - 1) + 1) s).2 hq1
        constructor
        · rw [planesDown_succ, emitSeq_fst, List.map_append, hshift, h1, ih1, h2,
            List.append_assoc, flatten_repl_merge]
          have harith : 32 * ((2 ^ q - 1) + 1) - 1 + ((32 * (2 ^ q - 1) - 1) + 1) =
              32 * (2 ^ (q + 1) - 1) - 1 := by
            have hpow2 : 2 ≤ 2 ^ q := by
              calc 2 = 2 ^ 1 := (pow_one 2).symm
              _ ≤ 2 ^ q := Nat.pow_le_pow_right (by norm_num) hq1
            obtain ⟨y, hy⟩ := Nat.exists_eq_add_of_le hpow
            rw [pow_succ, hy]
            rw [hy] at hpow2
            omega
          rw [harith]
        · rw [planesDown_succ, emitSeq_snd, hshift]
          exact ih2

theorem oeBit_renderProgram (img : RgbImage) :
    List.map oeBit (renderProgram mainCfg img) = oeProfile := by
  obtain ⟨h1, _⟩ := oeBit_planesDown img 5 (initialState mainCfg) (by norm_num)
  unfold renderProgram oeProfile
  rw [List.map_cons, List.map_append, h1, List.map_cons, List.map_nil,
    oeBit_setPin_oe, show oeBit (initialState mainCfg) = true from by decide]
  norm_num

theorem emitInv_seq {P : Nat → Prop} {f g : Nat → List Nat × Nat}
    (hf : EmitInv P f) (hg : EmitInv P g) : EmitInv P (emitSeq f g) := by
  intro s hs
  obtain ⟨hfw, hfs⟩ := hf s hs
  obtain ⟨hgw, hgs⟩ := hg (f s).2 hfs
  refine ⟨?_, hgs⟩
  intro w hw
  rw [emitSeq_fst] at hw
  rcases List.mem_append.mp hw with h | h
  · exact hfw w h
  · exact hgw w h

theorem emitInv_colsFrom {P : Nat → Prop} (cfg : PinCfg) (img : RgbImage)
    (bitPlane row : Nat)
    (h : ∀ col, EmitInv P (colStep cfg img bitPlane row col)) :
    ∀ n col, EmitInv P (fun s => colsFrom cfg img bitPlane row col n s) := by
  intro n
  induction n with
  | zero =>
      intro col s hs
      constructor
      · intro w hw
        change w ∈ (colsFrom cfg img bitPlane row col 0 s).1 at hw
        rw [colsFrom_zero] at hw
        exact absurd hw (by simp)
      · change P (colsFrom cfg img bitPlane row col 0 s).2
        rw [colsFrom_zero]
        exact hs
  | succ m ih =>
      intro col
      exact emitInv_seq (h col) (ih (col + 1))

theorem emitInv_rowsFrom {P : Nat → Prop} (cfg : PinCfg) (img : RgbImage)
    (bitPlane : Nat)
    (h : ∀ row, EmitInv P (rowStep cfg img bitPlane row)) :
    ∀ n row, EmitInv P (fun s => rowsFrom cfg img bitPlane row n s) := by
  intro n
  induction n with
  | zero =>
      intro row s hs
      constructor
      · intro w hw
        change w ∈ (rowsFrom cfg img bitPlane row 0 s).1 at hw
        rw [rowsFrom_zero] at hw
        exact absurd hw (by simp)
      · change P (rowsFrom cfg img bitPlane row 0 s).2
        rw [rowsFrom_zero]
        exact hs
  | succ m ih =>
      intro row
      exact emitInv_seq (h row) (ih (row + 1))

theorem emitInv_repeatScan {P : Nat → Prop} (cfg : PinCfg) (img : RgbImage)
    (bitPlane : Nat)
    (h : ∀ row, EmitInv P (rowStep cfg img bitPlane row)) :
    ∀ n, EmitInv P (repeatScan cfg img bitPlane n) := by
  intro n
  induction n with
  | zero =>
      intro s hs
      constructor
      · intro w hw
        rw [repeatScan_zero] at hw
        exact absurd hw (by simp)
      · rw [repeatScan_zero]
        exact hs
  | succ m ih =>
      exact emitInv_seq (emitInv_rowsFrom cfg img bitPlane h 32 0) ih

theorem emitInv_planesDown {P : Nat → Prop} (cfg : PinCfg) (img : RgbImage)
    (h : ∀ row bitPlane, EmitInv P (rowStep cfg img bitPlane row)) :
    ∀ p, EmitInv P (planesDown cfg img p) := by
  intro p
  induction p with
  | zero =>
      intro s hs
      constructor
      · intro w hw
        rw [planesDown_zero] at hw
        exact absurd hw (by simp)
      · rw [planesDown_zero]
        exact hs
  | succ q ih =>
      exact emitInv_seq
        (emitInv_repeatScan cfg img q (fun row => h row q) (1 <<< q)) ih

theorem rgbZero_clearPin (x p : Nat) (hx : rgbZero x) : rgbZero (clearPin x p) := by
  obtain ⟨h12, h13, h14, h15, h16, h17⟩ := hx
  refine ⟨?_, ?_, ?_, ?_, ?_, ?_⟩ <;>
    rw [testBit_clearPin _ _ _ (by norm_num)] <;>
    simp [h12, h13, h14, h15, h16, h17]

theorem rgbZero_setPin_le10 (x p : Nat) (hp : p ≤ 10) (hx : rgbZero x) :
    rgbZero (setPin x p) := by
  obtain ⟨h12, h13, h14, h15, h16, h17⟩ := hx
  refine ⟨?_, ?_, ?_, ?_, ?_, ?_⟩ <;> rw [testBit_setPin] <;>
    simp [h12, h13, h14, h15, h16, h17] <;> omega

theorem rgbZero_applyBit_le10 (x p bv : Nat) (hp : p ≤ 10) (hx : rgbZero x) :
    rgbZero (applyBit x p bv) := by
  unfold applyBit
  split
  · exact rgbZero_setPin_le10 x p hp hx
  · exact rgbZero_clearPin x p hx

theorem rgbZero_setAddr (row x : Nat) (hx : rgbZero x) :
    rgbZero (setAddr mainCfg row x) := by
  unfold setAddr
  apply rgbZero_applyBit_le10 _ _ _ (by decide)
  apply rgbZero_applyBit_le10 _ _ _ (by decide)
  apply rgbZero_applyBit_le10 _ _ _ (by decide)
  apply rgbZero_applyBit_le10 _ _ _ (by decide)
  apply rgbZero_applyBit_le10 _ _ _ (by decide)
  exact hx

theorem rgbZero_clearRgb (x : Nat) : rgbZero (clearRgb mainCfg x) := by
  simp [clearRgb, rgbZero, testBit_clearPin, mainCfg]

theorem colStep_black (bitPlane row col s : Nat) :
    (∀ w ∈ (colStep mainCfg allBlackImg bitPlane row col s).1, rgbZero w) ∧
    rgbZero (colStep mainCfg allBlackImg bitPlane row col s).2 := by
  have hz : ∀ x y ch : Nat,
      (lightness_correct (allBlackImg.pix x y ch) >>> (8 - 5 + bitPlane)) &&& 1 = 0 := by
    intro x y ch
    show (lightness_correct 0 >>> (8 - 5 + bitPlane)) &&& 1 = 0
    rw [show lightness_correct 0 = 0 from by decide]
    simp
  constructor
  · intro w hw
    simp only [colStep, hz, List.mem_cons, List.not_mem_nil, or_false] at hw
    rcases hw with rfl | rfl | rfl <;>
      simp [rgbZero, testBit_applyBit, testBit_setPin, testBit_clearPin, mainCfg]
  · simp only [colStep, hz]
    simp [rgbZero, testBit_applyBit, testBit_setPin, testBit_clearPin, mainCfg]

theorem emitInv_rowStep_black (bitPlane row : Nat) :
    EmitInv rgbZero (rowStep mainCfg allBlackImg bitPlane row) := by
  intro s _
  obtain ⟨hcw, hcs⟩ :=
    emitInv_colsFrom mainCfg allBlackImg bitPlane row
      (fun col s2 _ => colStep_black bitPlane row col s2) 64 0
      (clearRgb mainCfg s) (rgbZero_clearRgb s)
  simp only [rowStep]
  have h1 := rgbZero_setPin_le10 _ mainCfg.oe (by decide) hcs
  have h2 := rgbZero_clearPin _ mainCfg.lat h1
  have h3 := rgbZero_setPin_le10 _ mainCfg.lat (by decide) h2
  have h4 := rgbZero_setAddr row _ h3
  have h5 := rgbZero_clearPin _ mainCfg.oe h4
  refine ⟨?_, h5⟩
  intro w hw
  rcases List.mem_append.mp hw with h | h
  · exact hcw w h
  · simp only [List.mem_cons, List.not_mem_nil, or_false] at h
    rcases h with rfl | rfl | rfl | rfl | rfl
    · exact h1
    · exact h2
    · exact h3
    · exact h4
    · exact h5

theorem renderProgram_rgbZero :
    ∀ w ∈ renderProgram mainCfg allBlackImg, rgbZero w := by
  intro w hw
  unfold renderProgram at hw
  obtain ⟨hbw, hbs⟩ :=
    emitInv_planesDown mainCfg allBlackImg
      (fun row bitPlane => emitInv_rowStep_black bitPlane row) 5
      (initialState mainCfg) (by unfold rgbZero; decide)
  rcases List.mem_cons.mp hw with rfl | hw2
  · unfold rgbZero; decide
  · rcases List.mem_append.mp hw2 with h | h
    · exact hbw w h
    · simp only [List.mem_cons, List.not_mem_nil, or_false] at h
      rw [h]
      exact rgbZero_setPin_le10 _ _ (by decide) hbs

/-- C5 counterexample: for the all-black frame the RGB-bits half of the claim
holds, but the OE bit is NOT asserted only inside the latch/address windows:
the very first word of the program (index 0, the initial set-up word) already
has OE asserted, and no latch/address window contains index 0 (every window
index is at least 193).  The claim "OE asserted only in the transient
latch/address-change windows, nowhere else in the program" is therefore false. -/
theorem c5_counterexample :
    render_unoptimized mainCfg allBlackImg = Except.ok (renderProgram mainCfg allBlackImg) ∧
    ¬ ((∀ w ∈ renderProgram mainCfg allBlackImg, rgbZero w) ∧
       oeOnlyInWindows (renderProgram mainCfg allBlackImg)) := by
  refine ⟨rfl, ?_⟩
  rintro ⟨-, hoe⟩
  have hlen : 0 < (renderProgram mainCfg allBlackImg).length := by
    rw [renderProgram_len]
    norm_num
  have hget : (renderProgram mainCfg allBlackImg).get ⟨0, hlen⟩ = initialState mainCfg := rfl
  have h0 := hoe 0 hlen (by rw [hget]; decide)
  obtain ⟨r, k, hr, hk1, hk2, heq⟩ := h0
  omega

/-- C5 amended: for the all-black 64x64 frame every BusWord has all six RGB
data bits 0, and the OE bit of the program words follows exactly the profile
`oeProfile`: asserted in the initial set-up word, throughout the first row
block's 192 column words (output has not yet been enabled there), in the
four-word latch/address window of every one of the 992 row blocks, in the
final output-disable word — and deasserted everywhere else. -/
theorem c5_amended (L : List Nat)
    (h : render_unoptimized mainCfg allBlackImg = Except.ok L) :
    (∀ w ∈ L, rgbZero w) ∧ List.map oeBit L = oeProfile := by
  unfold render_unoptimized at h
  split at h
  · cases h
    exact ⟨renderProgram_rgbZero, oeBit_renderProgram allBlackImg⟩
  · exact absurd h (by simp)

/-- C5 witness: the amended profile evaluated at the concrete all-black frame. -/
theorem c5_witness :
    render_unoptimized mainCfg allBlackImg = Except.ok (renderProgram mainCfg allBlackImg) ∧
    ((∀ w ∈ renderProgram mainCfg allBlackImg, rgbZero w) ∧
      List.map oeBit (renderProgram mainCfg allBlackImg) = oeProfile) :=
  ⟨rfl, c5_amended (renderProgram mainCfg allBlackImg) rfl⟩

/-!
Claim C3: the data-line pattern of the all-red frame.
-/

theorem colStep_red (row col s : Nat) :
    (∀ w ∈ (colStep mainCfg allRedImg 4 row col s).1, redFramePat w) ∧
    redFramePat (colStep mainCfg allRedImg 4 row col s).2 := by
  have hz0 : ∀ x y : Nat,
      (lightness_correct (allRedImg.pix x y 0) >>> (8 - 5 + 4)) &&& 1 = 1 := by
    intro x y
    show (lightness_correct 255 >>> (8 - 5 + 4)) &&& 1 = 1
    decide
  have hz1 : ∀ x y : Nat,
      (lightness_correct (allRedImg.pix x y 1) >>> (8 - 5 + 4)) &&& 1 = 0 := by
    intro x y
    show (lightness_correct 0 >>> (8 - 5 + 4)) &&& 1 = 0
    decide
  have hz2 : ∀ x y : Nat,
      (lightness_correct (allRedImg.pix x y 2) >>> (8 - 5 + 4)) &&& 1 = 0 := by
    intro x y
    show (lightness_correct 0 >>> (8 - 5 + 4)) &&& 1 = 0
    decide
  constructor
  · intro w hw
    simp only [colStep, hz0, hz1, hz2, List.mem_cons, List.not_mem_nil, or_false] at hw
    rcases hw with rfl | rfl | rfl <;>
      simp [redFramePat, testBit_applyBit, testBit_setPin, testBit_clearPin, mainCfg]
  · simp only [colStep, hz0, hz1, hz2]
    simp [redFramePat, testBit_applyBit, testBit_setPin, testBit_clearPin, mainCfg]

theorem redPat_clearPin_le10 (x p : Nat) (hp : p ≤ 10) (hx : redFramePat x) :
    redFramePat (clearPin x p) := by
  obtain ⟨h13, h16, h12, h14, h15, h17⟩ := hx
  refine ⟨?_, ?_, ?_, ?_, ?_, ?_⟩ <;>
    rw [testBit_clearPin _ _ _ (by norm_num)] <;>
    simp [h12, h13, h14, h15, h16, h17] <;> omega

theorem redPat_setPin_le10 (x p : Nat) (hp : p ≤ 10) (hx : redFramePat x) :
    redFramePat (setPin x p) := by
  obtain ⟨h13, h16, h12, h14, h15, h17⟩ := hx
  refine ⟨?_, ?_, ?_, ?_, ?_, ?_⟩ <;> rw [testBit_setPin] <;>
    simp [h12, h13, h14, h15, h16, h17] <;> omega

theorem redPat_applyBit_le10 (x p bv : Nat) (hp : p ≤ 10) (hx : redFramePat x) :
    redFramePat (applyBit x p bv) := by
  unfold applyBit
  split
  · exact redPat_setPin_le10 x p hp hx
  · exact redPat_clearPin_le10 x p hp hx

theorem redPat_setAddr (row x : Nat) (hx : redFramePat x) :
    redFramePat (setAddr mainCfg row x) := by
  unfold setAddr
  apply redPat_applyBit_le10 _ _ _ (by decide)
  apply redPat_applyBit_le10 _ _ _ (by decide)
  apply redPat_applyBit_le10 _ _ _ (by decide)
  apply redPat_applyBit_le10 _ _ _ (by decide)
  apply redPat_applyBit_le10 _ _ _ (by decide)
  exact hx

theorem colsFrom64_red (row s : Nat) :
    (∀ w ∈ (colsFrom mainCfg allRedImg 4 row 0 64 s).1, redFramePat w) ∧
    redFramePat (colsFrom mainCfg allRedImg 4 row 0 64 s).2 := by
  have hstep := colStep_red row 0 s
  obtain ⟨hrw, hrs⟩ :=
    emitInv_colsFrom mainCfg allRedImg 4 row
      (fun col s2 _ => colStep_red row col s2) 63 1
      ((colStep mainCfg allRedImg 4 row 0 s).2) hstep.2
  constructor
  · intro w hw
    rw [show (64 : Nat) = 63 + 1 from rfl, colsFrom_succ, emitSeq_fst] at hw
    rcases List.mem_append.mp hw with h | h
    · exact hstep.1 w h
    · exact hrw w h
  · rw [show (64 : Nat) = 63 + 1 from rfl, colsFrom_succ, emitSeq_snd]
    exact hrs

theorem rowStep_red (row s : Nat) :
    (∀ w ∈ (rowStep mainCfg allRedImg 4 row s).1, redFramePat w) ∧
    redFramePat (rowStep mainCfg allRedImg 4 row s).2 := by
  obtain ⟨hcw, hcs⟩ := colsFrom64_red row (clearRgb mainCfg s)
  simp only [rowStep]
  have h1 := redPat_setPin_le10 _ mainCfg.oe (by decide) hcs
  have h2 := redPat_clearPin_le10 _ mainCfg.lat (by decide) h1
  have h3 := redPat_setPin_le10 _ mainCfg.lat (by decide) h2
  have h4 := redPat_setAddr row _ h3
  have h5 := redPat_clearPin_le10 _ mainCfg.oe (by decide) h4
  refine ⟨?_, h5⟩
  intro w hw
  rcases List.mem_append.mp hw with h | h
  · exact hcw w h
  · simp only [List.mem_cons, List.not_mem_nil, or_false] at h
    rcases h with rfl | rfl | rfl | rfl | rfl
    · exact h1
    · exact h2
    · exact h3
    · exact h4
    · exact h5

theorem rowsFrom32_red (s : Nat) :
    (∀ w ∈ (rowsFrom mainCfg allRedImg 4 0 32 s).1, redFramePat w) ∧
    redFramePat (rowsFrom mainCfg allRedImg 4 0 32 s).2 := by
  have hstep := rowStep_red 0 s
  obtain ⟨hrw, hrs⟩ :=
    emitInv_rowsFrom mainCfg allRedImg 4
      (fun row s2 _ => rowStep_red row s2) 31 1
      ((rowStep mainCfg allRedImg 4 0 s).2) hstep.2
  constructor
  · intro w hw
    rw [show (32 : Nat) = 31 + 1 from rfl, rowsFrom_succ, emitSeq_fst] at hw
    rcases List.mem_append.mp hw with h | h
    · exact hstep.1 w h
    · exact hrw w h
  · rw [show (32 : Nat) = 31 + 1 from rfl, rowsFrom_succ, emitSeq_snd]
    exact hrs

theorem msPlaneSegment_red : ∀ w ∈ msPlaneSegment allRedImg, redFramePat w := by
  intro w hw
  unfold msPlaneSegment at hw
  rw [show (1 <<< 4 : Nat) = 15 + 1 from rfl, repeatScan_succ, emitSeq_fst] at hw
  rcases List.mem_append.mp hw with h | h
  · exact (rowsFrom32_red (initialState mainCfg)).1 w h
  · obtain ⟨hw2, _⟩ :=
      emitInv_repeatScan mainCfg allRedImg 4
        (fun row s2 _ => rowStep_red row s2) 15
        ((scanStep mainCfg allRedImg 4 (initialState mainCfg)).2)
        ((rowsFrom32_red (initialState mainCfg)).2)
    exact hw2 w h

theorem msPlaneSegment_len (img : RgbImage) :
    (msPlaneSegment img).length = 2 ^ 4 * (32 * 197) := by
  unfold msPlaneSegment
  rw [repeatScan_len]
  decide

theorem renderProgram_ms_decomp (img : RgbImage) :
    renderProgram mainCfg img =
      initialState mainCfg ::
        (msPlaneSegment img ++
          ((planesDown mainCfg img 4
              (repeatScan mainCfg img 4 (1 <<< 4) (initialState mainCfg)).2).1 ++
           [setPin (planesDown mainCfg img 5 (initialState mainCfg)).2 mainCfg.oe])) := by
  unfold renderProgram msPlaneSegment
  rw [show (5 : Nat) = 4 + 1 from rfl, planesDown_succ, emitSeq_fst]
  simp [List.append_assoc]

/-- C3 counterexample: the first BusWord of the most-significant-plane segment
of the all-red (255,0,0) frame — which is the data word pushed for column 0 of
row 0, the first column word of the plane — is 75272, whose R1 bit (12) is
LOW: the source wires pixel channel 2 (blue) to R1, so an all-red frame does
not drive R1 at all, refuting "R1 high in every column word".  (Bit 13, the G1
line, is the one driven high.) -/
theorem c3_counterexample :
    (msPlaneSegment allRedImg).head? =
      (colStep mainCfg allRedImg 4 0 0 (clearRgb mainCfg (initialState mainCfg))).1.head? ∧
    (msPlaneSegment allRedImg).head? = some 75272 ∧
    Nat.testBit 75272 12 = false ∧
    ¬ (∀ w ∈ msPlaneSegment allRedImg, w.testBit 12 = true) := by
  have hcol : (colStep mainCfg allRedImg 4 0 0 (clearRgb mainCfg (initialState mainCfg))).1 =
      [75272, 75264, 75272] := by decide
  have hhead : (msPlaneSegment allRedImg).head? = some 75272 := by
    unfold msPlaneSegment
    rw [show (1 <<< 4 : Nat) = 15 + 1 from rfl, repeatScan_succ, emitSeq_fst]
    show ((rowsFrom mainCfg allRedImg 4 0 32 (initialState mainCfg)).1 ++ _).head? = _
    rw [show (32 : Nat) = 31 + 1 from rfl, rowsFrom_succ, emitSeq_fst]
    simp only [rowStep]
    rw [show (64 : Nat) = 63 + 1 from rfl, colsFrom_succ, emitSeq_fst, hcol]
    rfl
  refine ⟨?_, hhead, by decide, ?_⟩
  · rw [hhead, hcol]
    rfl
  · intro hall
    have hm : 75272 ∈ msPlaneSegment allRedImg := List.mem_of_mem_head? hhead
    exact absurd (hall 75272 hm) (by decide)

/-- C3 amended: for the all-red (255,0,0) 64x64 frame, every word of the most
significant plane's segment — which starts immediately after the initial word
and spans the full weighted repeat count 2^4 scans of 32*197 words — has the
G1 line (bit 13) high and the G2 line (bit 16) high, with R1, B1, R2, B2
(bits 12, 14, 15, 17) all low: the code maps pixel channel 0 (red) to the G
data lines and channel 2 (blue) to the R data lines. -/
theorem c3_amended (L : List Nat)
    (h : render_unoptimized mainCfg allRedImg = Except.ok L) :
    (∃ rest, L = initialState mainCfg :: (msPlaneSegment allRedImg ++ rest)) ∧
    (∀ w ∈ msPlaneSegment allRedImg, redFramePat w) ∧
    (msPlaneSegment allRedImg).length = 2 ^ 4 * (32 * 197) := by
  unfold render_unoptimized at h
  split at h
  · cases h
    exact ⟨⟨_, renderProgram_ms_decomp allRedImg⟩, msPlaneSegment_red,
      msPlaneSegment_len allRedImg⟩
  · exact absurd h (by simp)

/-- C3 witness: the amended pattern evaluated at the concrete all-red frame. -/
theorem c3_witness :
    render_unoptimized mainCfg allRedImg = Except.ok (renderProgram mainCfg allRedImg) ∧
    ((∃ rest, renderProgram mainCfg allRedImg =
        initialState mainCfg :: (msPlaneSegment allRedImg ++ rest)) ∧
     (∀ w ∈ msPlaneSegment allRedImg, redFramePat w) ∧
     (msPlaneSegment allRedImg).length = 2 ^ 4 * (32 * 197)) :=
  ⟨rfl, c3_amended (renderProgram mainCfg allRedImg) rfl⟩

/-!
Claim C6: latch/address changes happen only under output-disable; the clock
does not.
-/

theorem latAddrEq_refl (w : Nat) : latAddrEq w w :=
  ⟨rfl, rfl, rfl, rfl, rfl, rfl⟩

theorem latAddrEq_symm {w v : Nat} (h : latAddrEq w v) : latAddrEq v w := by
  obtain ⟨h4, h5, h6, h7, h8, h9⟩ := h
  exact ⟨h4.symm, h5.symm, h6.symm, h7.symm, h8.symm, h9.symm⟩

theorem latAddrEq_trans {u w v : Nat} (h1 : latAddrEq u w) (h2 : latAddrEq w v) :
    latAddrEq u v := by
  obtain ⟨a4, a5, a6, a7, a8, a9⟩ := h1
  obtain ⟨b4, b5, b6, b7, b8, b9⟩ := h2
  exact ⟨a4.trans b4, a5.trans b5, a6.trans b6, a7.trans b7, a8.trans b8, a9.trans b9⟩

theorem ctrlP_of_agree {w v : Nat} (h : latAddrEq w v) : ctrlP w v :=
  fun hne => absurd h hne

theorem ctrlP_of_oe {w v : Nat} (hw : oeBit w = true) (hv : oeBit v = true) :
    ctrlP w v :=
  fun _ => ⟨hw, hv⟩

theorem latAddrEq_applyBit (s p bv : Nat) (hp : p ≤ 3 ∨ p = 10 ∨ 12 ≤ p) :
    latAddrEq (applyBit s p bv) s := by
  refine ⟨?_, ?_, ?_, ?_, ?_, ?_⟩ <;>
    rw [testBit_applyBit _ _ _ _ (by norm_num), if_neg (by omega)]

theorem latAddrEq_setPin (s p : Nat) (hp : p ≤ 3 ∨ p = 10 ∨ 12 ≤ p) :
    latAddrEq (setPin s p) s := by
  rw [setPin_eq_applyBit]
  exact latAddrEq_applyBit s p 1 hp

theorem latAddrEq_clearPin (s p : Nat) (hp : p ≤ 3 ∨ p = 10 ∨ 12 ≤ p) :
    latAddrEq (clearPin s p) s := by
  rw [clearPin_eq_applyBit]
  exact latAddrEq_applyBit s p 0 hp

theorem latAddrEq_rgbChain (s b1v b2v b3v b4v b5v b6v : Nat) :
    latAddrEq (applyBit (applyBit (applyBit (applyBit (applyBit (applyBit
      s mainCfg.r1 b1v) mainCfg.g1 b2v) mainCfg.b1 b3v)
      mainCfg.r2 b4v) mainCfg.g2 b5v) mainCfg.b2 b6v) s := by
  apply latAddrEq_trans (latAddrEq_applyBit _ _ _ (by decide))
  apply latAddrEq_trans (latAddrEq_applyBit _ _ _ (by decide))
  apply latAddrEq_trans (latAddrEq_applyBit _ _ _ (by decide))
  apply latAddrEq_trans (latAddrEq_applyBit _ _ _ (by decide))
  apply latAddrEq_trans (latAddrEq_applyBit _ _ _ (by decide))
  exact latAddrEq_applyBit _ _ _ (by decide)

theorem latAddrEq_clearRgb (s : Nat) : latAddrEq (clearRgb mainCfg s) s := by
  unfold clearRgb
  apply latAddrEq_trans (latAddrEq_clearPin _ _ (by decide))
  apply latAddrEq_trans (latAddrEq_clearPin _ _ (by decide))
  apply latAddrEq_trans (latAddrEq_clearPin _ _ (by decide))
  apply latAddrEq_trans (latAddrEq_clearPin _ _ (by decide))
  apply latAddrEq_trans (latAddrEq_clearPin _ _ (by decide))
  exact latAddrEq_clearPin _ _ (by decide)

theorem goodEmit_seq {f g : Nat → List Nat × Nat}
    (hf : GoodEmit f) (hg : GoodEmit g) : GoodEmit (emitSeq f g) := by
  intro s anchor ha
  obtain ⟨hc1, hl1⟩ := hf s anchor ha
  obtain ⟨hc2, hl2⟩ := hg (f s).2 ((f s).1.getLastD anchor) hl1
  constructor
  · rw [emitSeq_fst]
    exact chainAppend hc1 hc2
  · rw [emitSeq_fst, emitSeq_snd, getLastD_append]
    exact hl2

theorem goodEmit_colStep (img : RgbImage) (bitPlane row col : Nat) :
    GoodEmit (colStep mainCfg img bitPlane row col) := by
  intro s anchor ha
  simp only [colStep]
  constructor
  · refine List.Chain.cons ?_ (List.Chain.cons ?_ (List.Chain.cons ?_ List.Chain.nil))
    · exact ctrlP_of_agree
        (latAddrEq_trans ha (latAddrEq_symm (latAddrEq_rgbChain s _ _ _ _ _ _)))
    · exact ctrlP_of_agree (latAddrEq_symm (latAddrEq_clearPin _ _ (by decide)))
    · exact ctrlP_of_agree (latAddrEq_symm (latAddrEq_setPin _ _ (by decide)))
  · simp only [List.getLastD_cons, List.getLastD_nil]
    exact latAddrEq_refl _

theorem goodEmit_colsFrom (img : RgbImage) (bitPlane row : Nat) :
    ∀ n col, GoodEmit (fun s => colsFrom mainCfg img bitPlane row col n s) := by
  intro n
  induction n with
  | zero =>
      intro col s anchor ha
      constructor
      · show List.Chain ctrlP anchor (colsFrom mainCfg img bitPlane row col 0 s).1
        rw [colsFrom_zero]
        exact List.Chain.nil
      · show latAddrEq
          (((colsFrom mainCfg img bitPlane row col 0 s).1).getLastD anchor)
          (colsFrom mainCfg img bitPlane row col 0 s).2
        rw [colsFrom_zero]
        exact ha
  | succ m ih =>
      intro col
      exact goodEmit_seq (goodEmit_colStep img bitPlane row col) (ih (col + 1))

theorem goodEmit_rowStep (img : RgbImage) (bitPlane row : Nat) :
    GoodEmit (rowStep mainCfg img bitPlane row) := by
  intro s anchor ha
  obtain ⟨hc, hl⟩ :=
    goodEmit_colsFrom img bitPlane row 64 0 (clearRgb mainCfg s) anchor
      (latAddrEq_trans ha (latAddrEq_symm (latAddrEq_clearRgb s)))
  simp only [rowStep]
  constructor
  · apply chainAppend hc
    refine List.Chain.cons ?_ (List.Chain.cons ?_ (List.Chain.cons ?_
      (List.Chain.cons ?_ (List.Chain.cons ?_ List.Chain.nil))))
    · exact ctrlP_of_agree
        (latAddrEq_trans hl (latAddrEq_symm (latAddrEq_setPin _ _ (by decide))))
    · exact ctrlP_of_oe (oeBit_setPin_oe _)
        ((oeBit_clearPin_lat _).trans (oeBit_setPin_oe _))
    · exact ctrlP_of_oe ((oeBit_clearPin_lat _).trans (oeBit_setPin_oe _))
        ((oeBit_setPin_lat _).trans ((oeBit_clearPin_lat _).trans (oeBit_setPin_oe _)))
    · exact ctrlP_of_oe
        ((oeBit_setPin_lat _).trans ((oeBit_clearPin_lat _).trans (oeBit_setPin_oe _)))
        ((oeBit_setAddr row _).trans ((oeBit_setPin_lat _).trans
          ((oeBit_clearPin_lat _).trans (oeBit_setPin_oe _))))
    · exact ctrlP_of_agree (latAddrEq_symm (latAddrEq_clearPin _ _ (by decide)))
  · rw [getLastD_append]
    simp only [List.getLastD_cons, List.getLastD_nil]
    exact latAddrEq_refl _

theorem goodEmit_rowsFrom (img : RgbImage) (bitPlane : Nat) :
    ∀ n row, GoodEmit (fun s => rowsFrom mainCfg img bitPlane row n s) := by
  intro n
  induction n with
  | zero =>
      intro row s anchor ha
      constructor
      · show List.Chain ctrlP anchor (rowsFrom mainCfg img bitPlane row 0 s).1
        rw [rowsFrom_zero]
        exact List.Chain.nil
      · show latAddrEq
          (((rowsFrom mainCfg img bitPlane row 0 s).1).getLastD anchor)
          (rowsFrom mainCfg img bitPlane row 0 s).2
        rw [rowsFrom_zero]
        exact ha
  | succ m ih =>
      intro row
      exact goodEmit_seq (goodEmit_rowStep img bitPlane row) (ih (row + 1))

theorem goodEmit_repeatScan (img : RgbImage) (bitPlane : Nat) :
    ∀ n, GoodEmit (repeatScan mainCfg img bitPlane n) := by
  intro n
  induction n with
  | zero =>
      intro s anchor ha
      constructor
      · rw [repeatScan_zero]
        exact List.Chain.nil
      · rw [repeatScan_zero]
        exact ha
  | succ m ih =>
      exact goodEmit_seq (goodEmit_rowsFrom img bitPlane 32 0) ih

theorem goodEmit_planesDown (img : RgbImage) :
    ∀ p, GoodEmit (planesDown mainCfg img p) := by
  intro p
  induction p with
  | zero =>
      intro s anchor ha
      constructor
      · rw [planesDown_zero]
        exact List.Chain.nil
      · rw [planesDown_zero]
        exact ha
  | succ q ih =>
      exact goodEmit_seq (goodEmit_repeatScan img q (1 <<< q)) ih

theorem renderProgram_chain (img : RgbImage) :
    List.Chain' ctrlP (renderProgram mainCfg img) := by
  unfold renderProgram
  show List.Chain ctrlP (initialState mainCfg)
    ((planesDown mainCfg img 5 (initialState mainCfg)).1 ++
      [setPin (planesDown mainCfg img 5 (initialState mainCfg)).2 mainCfg.oe])
  obtain ⟨hc, hl⟩ :=
    goodEmit_planesDown img 5 (initialState mainCfg) (initialState mainCfg)
      (latAddrEq_refl _)
  apply chainAppend hc
  refine List.Chain.cons ?_ List.Chain.nil
  exact ctrlP_of_agree
    (latAddrEq_trans hl (latAddrEq_symm (latAddrEq_setPin _ _ (by decide))))

/-- C6 amended: in every program generated by `render_unoptimized`, between
any two consecutive BusWords in which the LATCH bit or any row-address bit
changes, the output-enable bit is asserted (output disabled) in both words.
The clock line is excluded: it shifts data with output enabled (see the
counterexample). -/
theorem c6_amended (img : RgbImage) (L : List Nat)
    (h : render_unoptimized mainCfg img = Except.ok L) :
    List.Chain' ctrlP L := by
  unfold render_unoptimized at h
  split at h
  · cases h
    exact renderProgram_chain img
  · exact absurd h (by simp)

/-- C6 witness: the amended bracketing property on the all-black frame. -/
theorem c6_witness :
    render_unoptimized mainCfg allBlackImg = Except.ok (renderProgram mainCfg allBlackImg) ∧
    List.Chain' ctrlP (renderProgram mainCfg allBlackImg) :=
  ⟨rfl, c6_amended allBlackImg (renderProgram mainCfg allBlackImg) rfl⟩

theorem scanStep_eq (cfg : PinCfg) (img : RgbImage) (bitPlane s : Nat) :
    scanStep cfg img bitPlane s = rowsFrom cfg img bitPlane 0 32 s := rfl

theorem rowsFrom32_two (img : RgbImage) (s : Nat) :
    (rowsFrom mainCfg img 4 0 32 s).1 =
      (rowStep mainCfg img 4 0 s).1 ++
        ((rowStep mainCfg img 4 1 (rowStep mainCfg img 4 0 s).2).1 ++
          (rowsFrom mainCfg img 4 2 30
            (rowStep mainCfg img 4 1 (rowStep mainCfg img 4 0 s).2).2).1) := by
  rw [show (32 : Nat) = 31 + 1 from rfl, rowsFrom_succ, emitSeq_fst]
  congr 1

theorem renderProgram_scan_decomp (img : RgbImage) :
    renderProgram mainCfg img =
      initialState mainCfg ::
        ((((scanStep mainCfg img 4 (initialState mainCfg)).1 ++
            (repeatScan mainCfg img 4 15
              (scanStep mainCfg img 4 (initialState mainCfg)).2).1) ++
          (planesDown mainCfg img 4
            (repeatScan mainCfg img 4 15
              (scanStep mainCfg img 4 (initialState mainCfg)).2).2).1) ++
         [setPin (planesDown mainCfg img 4
             (repeatScan mainCfg img 4 15
               (scanStep mainCfg img 4 (initialState mainCfg)).2).2).2 mainCfg.oe]) := by
  unfold renderProgram
  rw [show (5 : Nat) = 4 + 1 from rfl, planesDown_succ, emitSeq_fst, emitSeq_snd,
      show (1 <<< 4 : Nat) = 15 + 1 from rfl, repeatScan_succ, emitSeq_fst, emitSeq_snd]

theorem chainPrime_two {P : Nat → Nat → Prop} {l1 l2 : List Nat} {w1 w2 : Nat}
    (hch : List.Chain' P (l1 ++ l2)) (ht : l1.take 2 = [w1, w2]) : P w1 w2 := by
  rcases l1 with _ | ⟨a, _ | ⟨b, t⟩⟩
  · simp [List.take] at ht
  · simp [List.take] at ht
  · rw [show (2 : Nat) = 1 + 1 from rfl, List.take_succ_cons,
      show (1 : Nat) = 0 + 1 from rfl, List.take_succ_cons, List.take_zero] at ht
    simp only [List.cons.injEq] at ht
    obtain ⟨rfl, rfl, -⟩ := ht
    simp only [List.cons_append] at hch
    have hc : List.Chain P a (b :: (t ++ l2)) := hch
    rcases hc with _ | ⟨hP, -⟩
    exact hP

/-- C6 counterexample: claim C6 as stated also covers the CLOCK bit, but the
clock toggles between consecutive column words of every row while output is
enabled.  Concretely, in the all-black program the first two words of the
second row block are 520 (data word, CLK high) and 512 (CLK pulled low): the
clock bit (3) changes between them while the OE bit (10) is low in both, so
the claimed pairwise property fails on this program. -/
theorem c6_counterexample :
    render_unoptimized mainCfg allBlackImg = Except.ok (renderProgram mainCfg allBlackImg) ∧
    ¬ List.Chain' c6ClaimP (renderProgram mainCfg allBlackImg) := by
  refine ⟨rfl, ?_⟩
  intro hch
  have hsuf1 :
      ((scanStep mainCfg allBlackImg 4 (initialState mainCfg)).1 ++
        ((repeatScan mainCfg allBlackImg 4 15
            (scanStep mainCfg allBlackImg 4 (initialState mainCfg)).2).1 ++
         ((planesDown mainCfg allBlackImg 4
             (repeatScan mainCfg allBlackImg 4 15
               (scanStep mainCfg allBlackImg 4 (initialState mainCfg)).2).2).1 ++
          [setPin (planesDown mainCfg allBlackImg 4
              (repeatScan mainCfg allBlackImg 4 15
                (scanStep mainCfg allBlackImg 4 (initialState mainCfg)).2).2).2
            mainCfg.oe]))) <:+
        renderProgram mainCfg allBlackImg := by
    refine ⟨[initialState mainCfg], ?_⟩
    rw [renderProgram_scan_decomp allBlackImg]
    simp [List.append_assoc]
  have hsuf2 :
      ((rowStep mainCfg allBlackImg 4 1
          (rowStep mainCfg allBlackImg 4 0 (initialState mainCfg)).2).1 ++
        ((rowsFrom mainCfg allBlackImg 4 2 30
            (rowStep mainCfg allBlackImg 4 1
              (rowStep mainCfg allBlackImg 4 0 (initialState mainCfg)).2).2).1 ++
         ((repeatScan mainCfg allBlackImg 4 15
             (scanStep mainCfg allBlackImg 4 (initialState mainCfg)).2).1 ++
          ((planesDown mainCfg allBlackImg 4
              (repeatScan mainCfg allBlackImg 4 15
                (scanStep mainCfg allBlackImg 4 (initialState mainCfg)).2).2).1 ++
           [setPin (planesDown mainCfg allBlackImg 4
               (repeatScan mainCfg allBlackImg 4 15
                 (scanStep mainCfg allBlackImg 4 (initialState mainCfg)).2).2).2
             mainCfg.oe])))) <:+
        ((scanStep mainCfg allBlackImg 4 (initialState mainCfg)).1 ++
          ((repeatScan mainCfg allBlackImg 4 15
              (scanStep mainCfg allBlackImg 4 (initialState mainCfg)).2).1 ++
           ((planesDown mainCfg allBlackImg 4
               (repeatScan mainCfg allBlackImg 4 15
                 (scanStep mainCfg allBlackImg 4 (initialState mainCfg)).2).2).1 ++
            [setPin (planesDown mainCfg allBlackImg 4
                (repeatScan mainCfg allBlackImg 4 15
                  (scanStep mainCfg allBlackImg 4 (initialState mainCfg)).2).2).2
              mainCfg.oe]))) := by
    refine ⟨(rowStep mainCfg allBlackImg 4 0 (initialState mainCfg)).1, ?_⟩
    rw [scanStep_eq, rowsFrom32_two allBlackImg (initialState mainCfg)]
    simp [List.append_assoc]
  have hch2 := hch.suffix (hsuf2.trans hsuf1)
  have htake : ((rowStep mainCfg allBlackImg 4 1
      (rowStep mainCfg allBlackImg 4 0 (initialState mainCfg)).2).1).take 2 =
      [520, 512] := by decide
  obtain ⟨h10, -⟩ := chainPrime_two hch2 htake (Or.inl (by decide))
  exact absurd h10 (by decide)
